import Mathlib

/-!
Verification of the SIGLAB-AVIARIO record-derivation and CSV-import core
(`src/unnamed/part_000` = the utils module, `src/App.tsx` import handlers).

Modelling conventions:
* JavaScript strings are lists of characters (`JStr`); string comparison
  (`<=`, `localeCompare`) on the ASCII date strings used by the program is the
  lexicographic order on `List Char` supplied by Mathlib.
* JavaScript numbers are rationals; where `parseFloat` can produce `NaN`,
  numbers are modelled by `JSNum` which adds an explicit `nan` point.
* `undefined` arguments and optional fields are modelled with `Option`.
-/

namespace Aviario

/-- A JavaScript string, modelled as its list of characters. -/
abbrev JStr := List Char

/-- The string `"undefined"`, the rendering JavaScript gives the `undefined`
value when it is interpolated into a template string or when a destructuring
misses.  Used as the default for out-of-range accesses in the model. -/
def jsUndefined : JStr := ['u', 'n', 'd', 'e', 'f', 'i', 'n', 'e', 'd']

/-- JavaScript `<=` on strings (lexicographic by code unit), as a Boolean. -/
def jle (a b : JStr) : Bool := decide (a ≤ b)

/-- JavaScript `String.prototype.includes`: substring containment. -/
def jsIncludes (s t : JStr) : Bool := decide (t <:+: s)

/-- JavaScript `String.prototype.trim` (both ends, Unicode whitespace). -/
def jsTrim (s : JStr) : JStr :=
  ((s.dropWhile Char.isWhitespace).reverse.dropWhile Char.isWhitespace).reverse

/-- JavaScript `String.prototype.padStart(n, c)` with a one-character pad. -/
def padStart (n : ℕ) (c : Char) (s : JStr) : JStr :=
  List.replicate (n - s.length) c ++ s

/-- JavaScript `String.prototype.split(sep)` for a non-empty string separator:
scan left to right, break at each (non-overlapping) occurrence of `sep`.
`fuel` bounds the number of characters consumed (structural recursion, so
proofs by evaluation reduce); `jsSplitOn` supplies the string's length. -/
def jsSplitOnAux (sep : JStr) : ℕ → JStr → List JStr
  | _, [] => [[]]
  | 0, s => [s]
  | fuel + 1, c :: rest =>
    if sep ≠ [] ∧ sep.isPrefixOf (c :: rest) then
      [] :: jsSplitOnAux sep fuel (List.drop (sep.length - 1) rest)
    else
      match jsSplitOnAux sep fuel rest with
      | [] => [[c]]
      | part :: parts => (c :: part) :: parts

/-- JavaScript `String.prototype.split(sep)`. -/
def jsSplitOn (sep : JStr) (s : JStr) : List JStr :=
  jsSplitOnAux sep s.length s

/-- Most-significant-first decimal digits of `n`, with enough `fuel` to cover
all of them (structural recursion so that proofs by evaluation reduce). -/
def natCharsAux : ℕ → ℕ → JStr
  | 0, _ => []
  | _ + 1, 0 => []
  | fuel + 1, n => natCharsAux fuel (n / 10) ++ [Nat.digitChar (n % 10)]

/-- Decimal rendering of a natural number, as JavaScript renders a number in a
template string (`String(n)`). -/
def natChars (n : ℕ) : JStr :=
  if n = 0 then ['0'] else natCharsAux n n

/-- Value of a string of decimal digits (the numeric part of the model of
`parseInt` / `parseFloat` / `Date` field extraction). -/
def charsToNat (s : JStr) : ℕ :=
  s.foldl (fun acc c => 10 * acc + (c.toNat - 48)) 0

/-- JavaScript `parseInt(s)` (radix 10): skip leading whitespace, optional
sign, then the longest run of decimal digits; `none` models `NaN`. -/
def parseIntJS (s : JStr) : Option ℤ :=
  let s₁ := s.dropWhile Char.isWhitespace
  let sign : ℤ := if s₁.head? = some '-' then -1 else 1
  let rest := if s₁.head? = some '-' ∨ s₁.head? = some '+' then s₁.tail else s₁
  let digs := rest.takeWhile Char.isDigit
  if digs = [] then none else some (sign * (charsToNat digs : ℤ))

/-! ### Data model

Modelled from the spec: `src/types.ts` is not among the provided sources; §3 of
the specification describes the record shapes, and the components show the
aviary enumeration's string values (`"Aviário 1"` … `"Aviário 4"`). -/

/-- Aviary identifiers: a fixed four-value string enumeration. -/
inductive AviaryId
  | A1
  | A2
  | A3
  | A4
deriving DecidableEq

/-- The enum's string value, as interpolated into template strings. -/
def AviaryId.str : AviaryId → JStr
  | .A1 => "Aviário 1".toList
  | .A2 => "Aviário 2".toList
  | .A3 => "Aviário 3".toList
  | .A4 => "Aviário 4".toList

/-- Feathering-quality categories (ordered enumeration from the spec). -/
inductive FeatheringQuality
  | MUITO_BOM
  | BOM
  | REGULAR
  | RUIM
  | PESSIMO
deriving DecidableEq

/-- A raw production record (`EggRecord` in `types.ts`). -/
structure EggRecord where
  id : JStr
  date : JStr
  aviary : AviaryId
  batchId : Option JStr
  clean : ℚ
  dirty : ℚ
  cracked : ℚ
  floorEggs : Option ℚ
  birds : ℚ
  weight : Option ℚ
  birdWeight : Option ℚ
  mortality : ℚ
  observation : Option JStr
deriving DecidableEq

/-- A flock characterization snapshot (`CharacterizationRecord`). -/
structure CharacterizationRecord where
  id : JStr
  date : JStr
  aviary : AviaryId
  batchId : JStr
  weekAge : ℚ
  batchWeight : ℚ
  uniformity : ℚ
  feathering : FeatheringQuality
deriving DecidableEq

/-- A derived record (`ComputedRecord`): the spread of the raw record plus the
derived fields, with `batchId` and `floorEggs` overridden. -/
structure ComputedRecord where
  id : JStr
  date : JStr
  aviary : AviaryId
  batchId : Option JStr
  clean : ℚ
  dirty : ℚ
  cracked : ℚ
  floorEggs : ℚ
  birds : ℚ
  weight : Option ℚ
  birdWeight : Option ℚ
  mortality : ℚ
  observation : Option JStr
  totalEggs : ℚ
  percClean : Option ℚ
  percDirty : Option ℚ
  percCracked : Option ℚ
  percFloorEggs : Option ℚ
  layingRate : Option ℚ
  fortnight : JStr
  month : JStr
  year : Option ℤ
deriving DecidableEq

/-! ### Temporal utilities (from `src/unnamed/part_000`) -/

/-- The fixed 12-entry month-abbreviation table of `getFortnight` and
`formatMonthBr`. -/
def monthNames : List JStr :=
  ["Jan", "Fev", "Mar", "Abr", "Mai", "Jun",
   "Jul", "Ago", "Set", "Out", "Nov", "Dez"].map String.toList

/-- The model of `getFortnight(dateStr)`.  `new Date(dateStr)` for an ISO `YYYY-MM-DD`
string parses it at midnight UTC, so `getUTCFullYear`/`getUTCMonth`/
`getUTCDate` are exactly the three dash-separated decimal fields; the model
extracts them by splitting on `'-'`. -/
def getFortnight (dateStr : JStr) : JStr :=
  let parts := jsSplitOn ['-'] dateStr
  let day := charsToNat (parts.getD 2 [])
  let mStr := monthNames.getD (charsToNat (parts.getD 1 []) - 1) jsUndefined
  let yStr := natChars (charsToNat (parts.getD 0 []))
  let part := if day ≤ 15 then "1ª Quinzena".toList else "2ª Quinzena".toList
  mStr ++ '/' :: (yStr ++ ' ' :: '-' :: ' ' :: part)

/-- Association-list lookup, modelling a JavaScript object/`Map` read. -/
def alookup {α : Type} : List (JStr × α) → JStr → Option α
  | [], _ => none
  | (k, v) :: rest, key => if k = key then some v else alookup rest key

/-- The `monthMap` lookup table of `compareFortnights`. -/
def monthMap : List (JStr × ℤ) :=
  [("Jan".toList, 0), ("Fev".toList, 1), ("Mar".toList, 2), ("Abr".toList, 3),
   ("Mai".toList, 4), ("Jun".toList, 5), ("Jul".toList, 6), ("Ago".toList, 7),
   ("Set".toList, 8), ("Out".toList, 9), ("Nov".toList, 10), ("Dez".toList, 11)]

/-- The internal `parse` helper of `compareFortnights`: split on `" - "`;
fewer than two parts gives `(0,0,0)`; otherwise year is `parseInt(yStr) || 0`,
month comes from the lookup table (`-1` when absent), and the fortnight
ordinal is 1 exactly when the second part contains `"1ª"`. -/
def parseFortnight (s : JStr) : ℤ × ℤ × ℤ :=
  match jsSplitOn [' ', '-', ' '] s with
  | datePart :: qPart :: _ =>
    let dparts := jsSplitOn ['/'] datePart
    let mStr := dparts.getD 0 jsUndefined
    let year := ((dparts[1]?).bind parseIntJS).getD 0
    let month := (alookup monthMap mStr).getD (-1)
    let q : ℤ := if jsIncludes qPart ['1', 'ª'] then 1 else 2
    (year, month, q)
  | _ => (0, 0, 0)

/-- The comparator `compareFortnights(a, b)`: lexicographic comparison of the parsed
(year, month, fortnight) triples, as a signed integer. -/
def compareFortnights (a b : JStr) : ℤ :=
  let pa := parseFortnight a
  let pb := parseFortnight b
  if pa.1 ≠ pb.1 then pa.1 - pb.1
  else if pa.2.1 ≠ pb.2.1 then pa.2.1 - pb.2.1
  else pa.2.2 - pb.2.2

/-! ### Record derivation (`computeRecord`) -/

/-- The derivation engine `computeRecord(record, charRecords)`: derived metrics plus the temporal
batch join.  The JavaScript sort comparator `(a, b) =>
b.date.localeCompare(a.date)` orders snapshots by descending date; `Array
.prototype.sort` is stable, as is `List.insertionSort`. -/
def computeRecord (record : EggRecord)
    (charRecords : List CharacterizationRecord) : ComputedRecord :=
  let floorEggs := record.floorEggs.getD 0
  let totalEggs := record.clean + record.dirty + record.cracked + floorEggs
  let percClean := if totalEggs > 0 then some (record.clean / totalEggs) else none
  let percDirty := if totalEggs > 0 then some (record.dirty / totalEggs) else none
  let percCracked := if totalEggs > 0 then some (record.cracked / totalEggs) else none
  let percFloorEggs := if totalEggs > 0 then some (floorEggs / totalEggs) else none
  let layingRate := if record.birds > 0 then some (totalEggs / record.birds) else none
  let batchId :=
    if 0 < charRecords.length then
      let aviaryChars := charRecords.filter fun c => decide (c.aviary = record.aviary)
      let sortedChars :=
        aviaryChars.insertionSort fun a b : CharacterizationRecord => b.date ≤ a.date
      match sortedChars.find? (fun c => jle c.date record.date) with
      | some activeChar => some activeChar.batchId
      | none => record.batchId
    else record.batchId
  { id := record.id
    date := record.date
    aviary := record.aviary
    batchId := batchId
    clean := record.clean
    dirty := record.dirty
    cracked := record.cracked
    floorEggs := floorEggs
    birds := record.birds
    weight := record.weight
    birdWeight := record.birdWeight
    mortality := record.mortality
    observation := record.observation
    totalEggs := totalEggs
    percClean := percClean
    percDirty := percDirty
    percCracked := percCracked
    percFloorEggs := percFloorEggs
    layingRate := layingRate
    fortnight := getFortnight record.date
    month := record.date.take 7
    year := parseIntJS (record.date.take 4) }

/-! ### Display/ISO date conversion (from `src/unnamed/part_000`)

`getTodayStr()` reads the wall clock; the model threads the current date in
as an explicit `today` parameter. -/

/-- The formatter `formatDateBr(dateStr)`: `''` for empty input, otherwise split the ISO
string on `'-'` and rearrange as `DD/MM/YYYY`.  A missing component renders as
JavaScript's `"undefined"`. -/
def formatDateBr (dateStr : JStr) : JStr :=
  if dateStr = [] then [] else
  let parts := jsSplitOn ['-'] dateStr
  let y := parts.getD 0 jsUndefined
  let m := parts.getD 1 jsUndefined
  let d := parts.getD 2 jsUndefined
  d ++ '/' :: (m ++ '/' :: y)

/-- The parser `parseDateFromBr(dateBr)`: today's date for missing/empty input; if the
input contains `'/'`, split into day/month/year, zero-pad day and month to two
characters and expand a two-character year with the prefix `"20"`; otherwise
return the input unchanged.  (When the split yields fewer than three parts the
JavaScript code would throw on `y.length`; the model substitutes the string
`"undefined"`, a case no verified claim exercises.) -/
def parseDateFromBr (today : JStr) (dateBr : Option JStr) : JStr :=
  match dateBr with
  | none => today
  | some s =>
    if s = [] then today
    else if s.contains '/' then
      let parts := jsSplitOn ['/'] s
      let d := parts.getD 0 jsUndefined
      let m := parts.getD 1 jsUndefined
      let y := parts.getD 2 jsUndefined
      let day := padStart 2 '0' d
      let month := padStart 2 '0' m
      let year := if y.length = 2 then '2' :: '0' :: y else y
      year ++ '-' :: (month ++ '-' :: day)
    else s

/-! ### Specification-side date/label constructors (used only to state
claims; `computeRecord`, `getFortnight` and `compareFortnights` above are the
code-side definitions). -/

/-- The canonical ISO rendering `YYYY-MM-DD` of a calendar date. -/
def isoOf (y m d : ℕ) : JStr :=
  padStart 4 '0' (natChars y) ++ '-' ::
    (padStart 2 '0' (natChars m) ++ '-' :: padStart 2 '0' (natChars d))

/-- The fortnight label `"<MonthAbbrev>/<FullYear> - <Ordinal> Quinzena"` for
month index `mIdx` (0-based), year `y` and fortnight ordinal `q`. -/
def mkFortnightLabel (mIdx : ℕ) (y : ℕ) (q : ℕ) : JStr :=
  monthNames.getD mIdx jsUndefined ++ '/' ::
    (natChars y ++ ' ' :: '-' :: ' ' ::
      (if q = 1 then "1ª Quinzena".toList else "2ª Quinzena".toList))

/-- A well-formed fortnight label: one actually produced by the label format,
with a real month abbreviation and ordinal 1 or 2. -/
def WellFormedFortnight (s : JStr) : Prop :=
  ∃ mIdx y q, mIdx < 12 ∧ (q = 1 ∨ q = 2) ∧ s = mkFortnightLabel mIdx y q

/-! ### JavaScript numbers with `NaN` (CSV numeric coercion) -/

/-- A JavaScript number as produced by the CSV parsers: a rational, or `NaN`
(which `parseFloat` returns on unparseable input). -/
inductive JSNum
  | num (q : ℚ)
  | nan
deriving DecidableEq

/-- JavaScript `<=` on numbers: any comparison with `NaN` is false. -/
def jsNumLe : JSNum → JSNum → Bool
  | .num a, .num b => decide (a ≤ b)
  | _, _ => false

/-- JavaScript `parseFloat` on the already-trimmed strings the parsers feed
it: optional sign, then decimal digits with an optional fractional part;
`NaN` when no digit is found.  (Exponent notation is not modelled; the CSV
format here never produces it.) -/
def parseFloatJS (s : JStr) : JSNum :=
  let sign : ℚ := if s.head? = some '-' then -1 else 1
  let rest := if s.head? = some '-' ∨ s.head? = some '+' then s.tail else s
  let intDigits := rest.takeWhile Char.isDigit
  let rest₂ := rest.drop intDigits.length
  match rest₂ with
  | '.' :: frac =>
    let fracDigits := frac.takeWhile Char.isDigit
    if intDigits = [] ∧ fracDigits = [] then .nan
    else .num (sign * ((charsToNat intDigits : ℚ) +
      (charsToNat fracDigits : ℚ) / (10 : ℚ) ^ fracDigits.length))
  | _ => if intDigits = [] then .nan else .num (sign * (charsToNat intDigits : ℚ))

/-- JavaScript `String.prototype.replace` with a one-character string pattern:
replace the first occurrence only. -/
def jsReplaceFirstChar : JStr → Char → Char → JStr
  | [], _, _ => []
  | c :: rest, a, b =>
    if c = a then b :: rest else c :: jsReplaceFirstChar rest a b

/-- The `parseNum` helper shared by `parseCSV` and `parseCharCSV`: `0` for a
missing or blank field, otherwise `parseFloat` of the trimmed value with the
first comma turned into a decimal point. -/
def parseNum (val : Option JStr) : JSNum :=
  match val with
  | none => .num 0
  | some v =>
    if v = [] then .num 0
    else
      let cleanVal := jsTrim v
      if cleanVal = [] then .num 0
      else parseFloatJS (jsReplaceFirstChar cleanVal ',' '.')

/-- The `parseNumNullable` helper of `parseCSV`: `null` for a missing or blank
field, otherwise `parseNum`. -/
def parseNumNullable (val : Option JStr) : Option JSNum :=
  match val with
  | none => none
  | some v => if jsTrim v = [] then none else some (parseNum (some v))

/-! ### CSV tokenization and parsing (from `src/unnamed/part_000`) -/

/-- Split raw text into lines on `\r\n` or `\n` (the `/\r\n|\n/` regex; a lone
`\r` is kept). -/
def jsSplitLines : JStr → List JStr
  | [] => [[]]
  | '\r' :: '\n' :: rest => [] :: jsSplitLines rest
  | '\n' :: rest => [] :: jsSplitLines rest
  | c :: rest =>
    match jsSplitLines rest with
    | [] => [[c]]
    | part :: parts => (c :: part) :: parts

/-- Strip a leading byte-order mark (`charCodeAt(0) === 0xFEFF`). -/
def stripBOM (s : JStr) : JStr :=
  match s with
  | c :: rest => if c.toNat = 0xFEFF then rest else c :: rest
  | [] => []

/-- The character loop of `splitCSVLine`: a double quote toggles the in-quote
state, the delimiter breaks a field only outside quotes.  `current` holds the
characters of the pending field in reverse. -/
def splitCSVLineAux (delimiter : Char) : JStr → Bool → JStr → List JStr
  | [], _, current => [current.reverse]
  | c :: rest, inQuote, current =>
    if c = '"' then splitCSVLineAux delimiter rest (!inQuote) current
    else if c = delimiter ∧ inQuote = false then
      current.reverse :: splitCSVLineAux delimiter rest inQuote []
    else splitCSVLineAux delimiter rest inQuote (c :: current)

/-- The cleanup `.replace(/^"|"$/g, '')`: remove one leading and one trailing quote. -/
def stripEdgeQuotes (s : JStr) : JStr :=
  let s₁ := match s with
    | '"' :: r => r
    | _ => s
  if s₁.getLast? = some '"' then s₁.dropLast else s₁

/-- The cleanup `.replace(/""/g, '"')`: collapse doubled quotes, left to right. -/
def collapseQuotes : JStr → JStr
  | '"' :: '"' :: rest => '"' :: collapseQuotes rest
  | c :: rest => c :: collapseQuotes rest
  | [] => []

/-- The tokenizer `splitCSVLine(line, delimiter)`: quote-aware tokenization, then each field
is trimmed, edge-quote-stripped and has doubled quotes collapsed. -/
def splitCSVLine (line : JStr) (delimiter : Char) : List JStr :=
  (splitCSVLineAux delimiter line false []).map
    fun c => collapseQuotes (stripEdgeQuotes (jsTrim c))

/-- Header normalization: `h.toLowerCase().trim().replace(/"/g, '')`. -/
def normalizeHeader (h : JStr) : JStr :=
  (jsTrim (h.map Char.toLower)).filter fun c => c ≠ '"'

/-- JavaScript `Array.prototype.indexOf` (exact match), with `none` for `-1`. -/
def idxOfExact : List JStr → JStr → Option ℕ
  | [], _ => none
  | h :: t, s => if h = s then some 0 else (idxOfExact t s).map (· + 1)

/-- JavaScript `Array.prototype.findIndex`, with `none` for `-1`. -/
def idxWhere (p : JStr → Bool) : List JStr → Option ℕ
  | [] => none
  | h :: t => if p h then some 0 else (idxWhere p t).map (· + 1)

/-- The access `cols[idx]` for a possibly `-1` index: `undefined` when the index is `-1`
or out of range. -/
def getCol (cols : List JStr) (idx : Option ℕ) : Option JStr :=
  idx.bind fun i => cols[i]?

/-- Aviary detection: scan the cell text for the digits 1–4, defaulting to
aviary 1. -/
def matchAviary (s : JStr) : AviaryId :=
  if s.contains '1' then .A1
  else if s.contains '2' then .A2
  else if s.contains '3' then .A3
  else if s.contains '4' then .A4
  else .A1

/-- JavaScript `toUpperCase` on the characters appearing in feathering labels.  Lean's
`Char.toUpper` is ASCII-only, so the accented letters used by the labels are
mapped explicitly. -/
def jsToUpperChar (c : Char) : Char :=
  if c = 'é' then 'É' else if c = 'á' then 'Á' else if c = 'í' then 'Í'
  else c.toUpper

/-- Feathering detection, in the source's priority order ("MUITO BOM" before
"BOM", …), defaulting to `BOM`. -/
def matchFeathering (s : JStr) : FeatheringQuality :=
  let fUpper := s.map jsToUpperChar
  if jsIncludes fUpper ("MUITO BOM".toList) then .MUITO_BOM
  else if jsIncludes fUpper ("BOM".toList) then .BOM
  else if jsIncludes fUpper ("REGULAR".toList) then .REGULAR
  else if jsIncludes fUpper ("RUIM".toList) then .RUIM
  else if jsIncludes fUpper ("PESSIMO".toList) ||
    jsIncludes fUpper ("PÉSSIMO".toList) then .PESSIMO
  else .BOM

/-- Modelled from the spec: `generateUUID()` returns a fresh opaque identifier
(a `crypto.randomUUID` string, always longer than 5 characters).  No verified
claim depends on its value, so the model uses a fixed placeholder. -/
def generatedUUID : JStr := "00000000-0000-4000-8000-000000000000".toList

/-- A production record as built by `parseCSV`: numeric fields may be `NaN`;
`floorEggs` is always a number here. -/
structure CSVEggRecord where
  id : JStr
  date : JStr
  aviary : AviaryId
  batchId : Option JStr
  clean : JSNum
  dirty : JSNum
  cracked : JSNum
  floorEggs : JSNum
  birds : JSNum
  weight : Option JSNum
  birdWeight : Option JSNum
  mortality : JSNum
  observation : Option JStr
deriving DecidableEq

/-- A characterization record as built by `parseCharCSV`. -/
structure CSVCharRecord where
  id : JStr
  date : JStr
  aviary : AviaryId
  batchId : JStr
  weekAge : JSNum
  batchWeight : JSNum
  uniformity : JSNum
  feathering : FeatheringQuality
deriving DecidableEq

/-- The id reuse rule shared by both parsers:
`(idxId > -1 && cols[idxId] && cols[idxId].length > 5) ? cols[idxId] :
generateUUID()`. -/
def pickId (cols : List JStr) (idxId : Option ℕ) : JStr :=
  match getCol cols idxId with
  | some s => if s ≠ [] ∧ 5 < s.length then s else generatedUUID
  | none => generatedUUID

/-- The `cols[idxAviary] || 'Aviário 1'` default. -/
def aviaryCell (cols : List JStr) (idx : Option ℕ) : JStr :=
  match getCol cols idx with
  | some s => if s = [] then "Aviário 1".toList else s
  | none => "Aviário 1".toList

/-- The parser `parseCSV(csvText)` (production records).  `today` models `getTodayStr()`
inside `parseDateFromBr`. -/
def parseCSV (today : JStr) (csvText : JStr) : List CSVEggRecord :=
  let lines := (jsSplitLines csvText).filter fun l => !(jsTrim l).isEmpty
  if lines.length < 2 then [] else
  let firstLine := stripBOM (lines.headD [])
  let delimiter := if firstLine.contains ';' then ';' else ','
  let headers := (splitCSVLine firstLine delimiter).map normalizeHeader
  let idxId := idxOfExact headers ("id".toList)
  let idxDate := idxOfExact headers ("data".toList)
  let idxAviary := idxWhere (fun h => jsIncludes h ("aviário".toList) ||
    jsIncludes h ("aviario".toList)) headers
  let idxBatch := idxWhere (fun h => jsIncludes h ("lote".toList)) headers
  let idxClean := idxWhere (fun h => jsIncludes h ("limpos".toList)) headers
  let idxDirty := idxWhere (fun h => jsIncludes h ("sujos".toList)) headers
  let idxCracked := idxWhere (fun h => jsIncludes h ("trincados".toList)) headers
  let idxFloor := idxWhere (fun h => jsIncludes h ("cama".toList)) headers
  let idxBirds := idxWhere (fun h => jsIncludes h ("aves".toList) &&
    jsIncludes h ("vivas".toList)) headers
  let idxWeight := idxWhere (fun h => jsIncludes h ("peso".toList) &&
    jsIncludes h ("ovos".toList)) headers
  let idxBirdWeight := idxWhere (fun h => jsIncludes h ("peso".toList) &&
    jsIncludes h ("aves".toList)) headers
  let idxMortality := idxWhere (fun h => jsIncludes h ("mort".toList) ||
    jsIncludes h ("mortalidade".toList)) headers
  let idxObs := idxWhere (fun h => jsIncludes h ("obs".toList) ||
    jsIncludes h ("observação".toList)) headers
  (lines.drop 1).filterMap fun line =>
    let cols := splitCSVLine line delimiter
    if cols.length < 3 then none else
    let record : CSVEggRecord := {
      id := pickId cols idxId
      date := parseDateFromBr today (getCol cols idxDate)
      aviary := matchAviary (aviaryCell cols idxAviary)
      batchId := getCol cols idxBatch
      clean := match idxClean with
        | some i => parseNum cols[i]?
        | none => .num 0
      dirty := match idxDirty with
        | some i => parseNum cols[i]?
        | none => .num 0
      cracked := match idxCracked with
        | some i => parseNum cols[i]?
        | none => .num 0
      floorEggs := match idxFloor with
        | some i => parseNum cols[i]?
        | none => .num 0
      birds := match idxBirds with
        | some i => parseNum cols[i]?
        | none => .num 0
      weight := match idxWeight with
        | some i => parseNumNullable cols[i]?
        | none => none
      birdWeight := match idxBirdWeight with
        | some i => parseNumNullable cols[i]?
        | none => none
      mortality := match idxMortality with
        | some i => parseNum cols[i]?
        | none => .num 0
      observation := getCol cols idxObs }
    if record.date = [] ∧ record.clean = .num 0 ∧ record.birds = .num 0
    then none
    else some record

/-- The parser `parseCharCSV(csvText)` (characterization records). -/
def parseCharCSV (today : JStr) (csvText : JStr) : List CSVCharRecord :=
  let lines := (jsSplitLines csvText).filter fun l => !(jsTrim l).isEmpty
  if lines.length < 2 then [] else
  let firstLine := stripBOM (lines.headD [])
  let delimiter := if firstLine.contains ';' then ';' else ','
  let headers := (splitCSVLine firstLine delimiter).map normalizeHeader
  let idxId := idxOfExact headers ("id".toList)
  let idxDate := idxOfExact headers ("data".toList)
  let idxAviary := idxWhere (fun h => jsIncludes h ("aviário".toList) ||
    jsIncludes h ("aviario".toList)) headers
  let idxBatch := idxWhere (fun h => jsIncludes h ("lote".toList)) headers
  let idxAge := idxWhere (fun h => jsIncludes h ("idade".toList) ||
    jsIncludes h ("semanas".toList)) headers
  let idxWeight := idxWhere (fun h => jsIncludes h ("peso".toList)) headers
  let idxUniformity := idxWhere (fun h => jsIncludes h ("uniformidade".toList)) headers
  let idxFeathering := idxWhere (fun h => jsIncludes h ("empenamento".toList)) headers
  (lines.drop 1).filterMap fun line =>
    let cols := splitCSVLine line delimiter
    if cols.length < 3 then none else
    let featheringStr := match getCol cols idxFeathering with
      | some s => if s = [] then "Bom".toList else s
      | none => "Bom".toList
    let record : CSVCharRecord := {
      id := pickId cols idxId
      date := parseDateFromBr today (getCol cols idxDate)
      aviary := matchAviary (aviaryCell cols idxAviary)
      batchId := (getCol cols idxBatch).getD []
      weekAge := match idxAge with
        | some i => parseNum cols[i]?
        | none => .num 0
      batchWeight := match idxWeight with
        | some i => parseNum cols[i]?
        | none => .num 0
      uniformity := match idxUniformity with
        | some i => parseNum cols[i]?
        | none => .num 0
      feathering := matchFeathering featheringStr }
    if record.date = [] ∨ jsNumLe record.weekAge (.num 0) = true
    then none
    else some record

/-! ### Import merge (from `src/App.tsx`)

A JavaScript `Map` is modelled as an insertion-ordered association list with
unique keys; `Map.prototype.set` replaces in place. -/

/-- JavaScript `Map.prototype.set`: replace the value at an existing key in place,
otherwise append a new entry. -/
def jsMapSet {α : Type} : List (JStr × α) → JStr → α → List (JStr × α)
  | [], k, v => [(k, v)]
  | (k₀, v₀) :: rest, k, v =>
    if k₀ = k then (k, v) :: rest else (k₀, v₀) :: jsMapSet rest k v

/-- The first loop of the import handlers: load the existing records into the
map keyed by `keyOf`. -/
def buildMap {α : Type} (keyOf : α → JStr) (recs : List α) : List (JStr × α) :=
  recs.foldl (fun m r => jsMapSet m (keyOf r) r) []

/-- One step of the second loop: an incoming record replaces the entry at its
key but inherits that entry's identifier; a fresh key is inserted as-is. -/
def mergeStep {α : Type} (keyOf : α → JStr) (idOf : α → JStr)
    (setId : α → JStr → α) (m : List (JStr × α)) (r : α) : List (JStr × α) :=
  match alookup m (keyOf r) with
  | some existing => jsMapSet m (keyOf r) (setId r (idOf existing))
  | none => jsMapSet m (keyOf r) r

/-- The full merged map, before taking `Array.from(map.values())`. -/
def mergedMap {α : Type} (keyOf : α → JStr) (idOf : α → JStr)
    (setId : α → JStr → α) (prev incoming : List α) : List (JStr × α) :=
  incoming.foldl (mergeStep keyOf idOf setId) (buildMap keyOf prev)

/-- The merge key `${r.date}|${r.aviary}` of `handleImportRecords`. -/
def recordKey (r : EggRecord) : JStr := r.date ++ '|' :: r.aviary.str

/-- The merge key `${r.date}|${r.aviary}|${r.batchId}` of
`handleImportCharRecords`. -/
def charKey (r : CharacterizationRecord) : JStr :=
  r.date ++ '|' :: (r.aviary.str ++ '|' :: r.batchId)

/-- The handler `handleImportRecords` (state update of `src/App.tsx`). -/
def handleImportRecords (prev newRecords : List EggRecord) : List EggRecord :=
  (mergedMap recordKey EggRecord.id (fun r i => { r with id := i })
    prev newRecords).map Prod.snd

/-- The handler `handleImportCharRecords` (state update of `src/App.tsx`). -/
def handleImportCharRecords (prev newRecords : List CharacterizationRecord) :
    List CharacterizationRecord :=
  (mergedMap charKey CharacterizationRecord.id (fun r i => { r with id := i })
    prev newRecords).map Prod.snd

/-- The last element of a list satisfying a (decidable) predicate — the
specification-side description of "last write per key". -/
def lastWith {α : Type} (p : α → Prop) [DecidablePred p] : List α → Option α
  | [] => none
  | r :: rest =>
    match lastWith p rest with
    | some r' => some r'
    | none => if p r then some r else none

/-! ### Concrete sample data for witnesses and counterexamples -/

/-- Snapshot for aviary 1, batch "L1", dated 2024-01-01. -/
def snapJan : CharacterizationRecord :=
  { id := "c1".toList, date := "2024-01-01".toList, aviary := .A1,
    batchId := "L1".toList, weekAge := 20, batchWeight := 1800,
    uniformity := 85, feathering := .BOM }

/-- Snapshot for aviary 1, batch "L2", dated 2024-03-01. -/
def snapMar : CharacterizationRecord :=
  { id := "c2".toList, date := "2024-03-01".toList, aviary := .A1,
    batchId := "L2".toList, weekAge := 28, batchWeight := 1900,
    uniformity := 88, feathering := .BOM }

/-- A production record dated 2024-03-10 for aviary 1 (the spec's example). -/
def recMarch : EggRecord :=
  { id := "r1".toList, date := "2024-03-10".toList, aviary := .A1,
    batchId := none, clean := 80, dirty := 10, cracked := 5,
    floorEggs := none, birds := 100, weight := none, birdWeight := none,
    mortality := 0, observation := none }

/-- A production record dated 2023-12-01 (before any snapshot) carrying a
stored batch identifier. -/
def recDec : EggRecord :=
  { id := "r0".toList, date := "2023-12-01".toList, aviary := .A1,
    batchId := some "STORED".toList, clean := 50, dirty := 2, cracked := 1,
    floorEggs := none, birds := 100, weight := none, birdWeight := none,
    mortality := 0, observation := none }

/-- The sorted snapshot list of `computeRecord`'s batch-resolution branch. -/
def sortedAviaryChars (record : EggRecord)
    (charRecords : List CharacterizationRecord) : List CharacterizationRecord :=
  (charRecords.filter fun c => decide (c.aviary = record.aviary)).insertionSort
    fun a b : CharacterizationRecord => b.date ≤ a.date

/-- The three chronological labels of the spec's sorting example. -/
def labelJan1 : JStr := "Jan/2024 - 1ª Quinzena".toList

def labelJan2 : JStr := "Jan/2024 - 2ª Quinzena".toList

def labelFev1 : JStr := "Fev/2024 - 1ª Quinzena".toList

/-- The merged production-record map of `handleImportRecords`. -/
def mergedRecordMap (prev incoming : List EggRecord) :
    List (JStr × EggRecord) :=
  mergedMap recordKey EggRecord.id (fun r i => { r with id := i }) prev incoming

/-- The merged characterization-record map of `handleImportCharRecords`. -/
def mergedCharMap (prev incoming : List CharacterizationRecord) :
    List (JStr × CharacterizationRecord) :=
  mergedMap charKey CharacterizationRecord.id (fun r i => { r with id := i })
    prev incoming

/-! ### C9: the blank-row guard of `parseCSV` is unreachable -/

/-- A CSV whose single body row has an empty date cell, clean count 0 and
bird count 0 — by the spec this row must be discarded. -/
def csvDeadGuard : JStr := "data;ovos limpos;aves vivas\n;0;0".toList

theorem isPrefixOf_eq (l₁ l₂ : JStr) : l₁.isPrefixOf l₂ = true ↔ l₁ <+: l₂ :=
  List.isPrefixOf_iff_prefix

theorem jsSplitOnAux_ne_nil (sep : JStr) : ∀ fuel s, jsSplitOnAux sep fuel s ≠ []
  | fuel, [] => by cases fuel <;> simp [jsSplitOnAux]
  | 0, _ :: _ => by simp [jsSplitOnAux]
  | fuel + 1, c :: rest => by
    rw [jsSplitOnAux]
    split
    · simp
    · have := jsSplitOnAux_ne_nil sep fuel rest
      split <;> simp_all

theorem jsSplitOn_ne_nil (sep : JStr) (s : JStr) : jsSplitOn sep s ≠ [] :=
  jsSplitOnAux_ne_nil sep s.length s

/-- The fuel is irrelevant as long as it covers the string's length. -/
theorem jsSplitOnAux_fuel (sep : JStr) :
    ∀ f₁ f₂ s, s.length ≤ f₁ → s.length ≤ f₂ →
      jsSplitOnAux sep f₁ s = jsSplitOnAux sep f₂ s := by
  intro f₁
  induction f₁ with
  | zero =>
    intro f₂ s h₁ _
    have : s = [] := List.length_eq_zero.mp (Nat.le_zero.mp h₁)
    subst this
    cases f₂ <;> rfl
  | succ f ih =>
    intro f₂ s h₁ h₂
    cases s with
    | nil => cases f₂ <;> rfl
    | cons c rest =>
      cases f₂ with
      | zero => simp at h₂
      | succ f' =>
        rw [jsSplitOnAux, jsSplitOnAux]
        simp only [List.length_cons] at h₁ h₂
        by_cases hc : sep ≠ [] ∧ sep.isPrefixOf (c :: rest)
        · rw [if_pos hc, if_pos hc]
          congr 1
          exact ih f' _
            (by simp only [List.length_drop]; omega)
            (by simp only [List.length_drop]; omega)
        · rw [if_neg hc, if_neg hc, ih f' rest (by omega) (by omega)]

theorem jsSplitOnAux_of_no_sep (sep : JStr) :
    ∀ fuel s, s.length ≤ fuel → ¬ sep <:+: s → jsSplitOnAux sep fuel s = [s] := by
  intro fuel
  induction fuel with
  | zero =>
    intro s h _
    have : s = [] := List.length_eq_zero.mp (Nat.le_zero.mp h)
    subst this; rfl
  | succ f ih =>
    intro s h hinf
    cases s with
    | nil => rfl
    | cons c rest =>
      rw [jsSplitOnAux]
      have hpre : ¬ sep.isPrefixOf (c :: rest) := fun hp =>
        hinf ((isPrefixOf_eq sep (c :: rest)).mp hp).isInfix
      rw [if_neg (fun hc => hpre hc.2)]
      have hrest : ¬ sep <:+: rest := fun hi =>
        hinf (hi.trans (List.suffix_cons c rest).isInfix)
      have hlen : rest.length ≤ f := by
        simp only [List.length_cons] at h; omega
      rw [ih rest hlen hrest]

/-- A string that does not contain the separator is returned whole. -/
theorem jsSplitOn_of_no_sep (sep : JStr)
    (s : JStr) (h : ¬ sep <:+: s) : jsSplitOn sep s = [s] :=
  jsSplitOnAux_of_no_sep sep s.length s (le_refl _) h

theorem jsSplitOnAux_append (c₀ : Char) (t : JStr) :
    ∀ a b fuel, (a ++ (c₀ :: t) ++ b).length ≤ fuel → c₀ ∉ a →
      jsSplitOnAux (c₀ :: t) fuel (a ++ (c₀ :: t) ++ b) =
        a :: jsSplitOn (c₀ :: t) b := by
  intro a
  induction a with
  | nil =>
    intro b fuel hf _
    have harg : ([] : JStr) ++ (c₀ :: t) ++ b = c₀ :: (t ++ b) := by simp
    rw [harg] at hf ⊢
    cases fuel with
    | zero => simp at hf
    | succ f =>
      rw [jsSplitOnAux]
      rw [if_pos ⟨by simp, (isPrefixOf_eq (c₀ :: t) (c₀ :: (t ++ b))).mpr ⟨b, by simp⟩⟩]
      simp only [List.length_cons, Nat.add_sub_cancel]
      rw [List.drop_left]
      have hb : b.length ≤ f := by
        simp only [List.length_cons, List.length_append] at hf; omega
      rw [jsSplitOn, jsSplitOnAux_fuel (c₀ :: t) f b.length b hb (le_refl _)]
  | cons a₀ a ih =>
    intro b fuel hf hmem
    have ha₀ : a₀ ≠ c₀ := fun he => hmem (he ▸ List.mem_cons_self a₀ a)
    have harg : (a₀ :: a) ++ (c₀ :: t) ++ b = a₀ :: (a ++ (c₀ :: t) ++ b) := by
      simp
    rw [harg] at hf ⊢
    cases fuel with
    | zero => simp at hf
    | succ f =>
      rw [jsSplitOnAux]
      have hpre : ¬ (c₀ :: t).isPrefixOf (a₀ :: (a ++ (c₀ :: t) ++ b)) := by
        rw [isPrefixOf_eq, List.cons_prefix_cons]
        rintro ⟨h1, -⟩
        exact ha₀ h1.symm
      rw [if_neg (fun hc => hpre hc.2)]
      have hlen : (a ++ (c₀ :: t) ++ b).length ≤ f := by
        simp only [List.length_cons] at hf; omega
      rw [ih b f hlen (fun hm => hmem (List.mem_cons_of_mem a₀ hm))]

/-- Splitting `a ++ sep ++ b` where `a` avoids the separator's first character
yields `a` followed by the splitting of `b`. -/
theorem jsSplitOn_append (c₀ : Char) (t : JStr) (a b : JStr) (h : c₀ ∉ a) :
    jsSplitOn (c₀ :: t) (a ++ (c₀ :: t) ++ b) = a :: jsSplitOn (c₀ :: t) b :=
  jsSplitOnAux_append c₀ t a b (a ++ (c₀ :: t) ++ b).length (le_refl _) h

theorem charsToNat_aux (L : List ℕ) (hL : ∀ d ∈ L, d < 10) :
    (List.foldr (fun c acc => 10 * acc + (c.toNat - 48)) 0 (L.map Nat.digitChar)) =
      Nat.ofDigits 10 L := by
  induction L with
  | nil => simp [Nat.ofDigits]
  | cons d ds ih =>
    have hd : d < 10 := hL d (List.mem_cons_self d ds)
    have hds : ∀ x ∈ ds, x < 10 := fun x hx => hL x (List.mem_cons_of_mem d hx)
    have hdc : (Nat.digitChar d).toNat - 48 = d := by
      interval_cases d <;> decide
    simp only [List.map_cons, List.foldr_cons, ih hds, Nat.ofDigits_cons, hdc]
    ring

theorem natCharsAux_eq (fuel : ℕ) :
    ∀ n : ℕ, n ≤ fuel →
      natCharsAux fuel n = (Nat.digits 10 n).reverse.map Nat.digitChar := by
  induction fuel with
  | zero =>
    intro n h
    have : n = 0 := Nat.le_zero.mp h
    subst this
    simp [natCharsAux]
  | succ f ih =>
    intro n h
    cases n with
    | zero => simp [natCharsAux]
    | succ m =>
      have hdiv : (m + 1) / 10 ≤ f := by
        have := Nat.div_lt_self (Nat.succ_pos m) (by norm_num : 1 < 10)
        omega
      rw [natCharsAux, ih ((m + 1) / 10) hdiv,
        Nat.digits_def' (by norm_num : (1 : ℕ) < 10) (Nat.succ_pos m),
        List.reverse_cons, List.map_append]
      · simp
      · omega

theorem natChars_eq_digits (n : ℕ) (h : n ≠ 0) :
    natChars n = (Nat.digits 10 n).reverse.map Nat.digitChar := by
  rw [natChars, if_neg h, natCharsAux_eq n n (le_refl n)]

theorem charsToNat_natChars (n : ℕ) : charsToNat (natChars n) = n := by
  by_cases h : n = 0
  · subst h; decide
  · rw [natChars_eq_digits n h, charsToNat, List.map_reverse, List.foldl_reverse]
    have := charsToNat_aux (Nat.digits 10 n)
      (fun d hd => Nat.digits_lt_base (by norm_num) hd)
    simpa [this] using Nat.ofDigits_digits 10 n

theorem natChars_digits (n : ℕ) : ∀ c ∈ natChars n, c.isDigit = true := by
  by_cases h : n = 0
  · subst h; decide
  · rw [natChars_eq_digits n h]
    intro c hc
    obtain ⟨d, hd, rfl⟩ := List.mem_map.mp hc
    have : d < 10 := Nat.digits_lt_base (by norm_num) (List.mem_reverse.mp hd)
    interval_cases d <;> decide

theorem isDigit_ne (c : Char) (b : Char) (hb : b.isDigit = false)
    (h : c.isDigit = true) : c ≠ b := by
  intro he; rw [he, hb] at h; exact Bool.false_ne_true h

theorem natChars_ne_nil (n : ℕ) : natChars n ≠ [] := by
  by_cases h : n = 0
  · subst h; decide
  · rw [natChars_eq_digits n h]
    simp [Nat.digits_ne_nil_iff_ne_zero, h]

/-- Leading `'0'` padding does not change the decimal value. -/
theorem charsToNat_padStart (k : ℕ) (s : JStr) :
    charsToNat (padStart k '0' s) = charsToNat s := by
  rw [padStart, charsToNat, charsToNat, List.foldl_append]
  congr 1
  generalize k - s.length = m
  induction m with
  | zero => rfl
  | succ i ih => rw [List.replicate_succ, List.foldl_cons]; simpa using ih

theorem padStart_digits (k : ℕ) (s : JStr) (hs : ∀ c ∈ s, c.isDigit = true) :
    ∀ c ∈ padStart k '0' s, c.isDigit = true := by
  intro c hc
  rcases List.mem_append.mp hc with h | h
  · rw [List.eq_of_mem_replicate h]; decide
  · exact hs c h

theorem isDigit_not_whitespace (c : Char) (h : c.isDigit = true) :
    c.isWhitespace = false := by
  by_contra hw
  rw [Bool.not_eq_false, Char.isWhitespace] at hw
  simp only [Bool.or_eq_true, decide_eq_true_eq] at hw
  rcases hw with ((rfl | rfl) | rfl) | rfl <;> exact absurd h (by decide)

theorem parseIntJS_all_digits (s : JStr) (hne : s ≠ [])
    (hs : ∀ c ∈ s, c.isDigit = true) : parseIntJS s = some (charsToNat s : ℤ) := by
  obtain ⟨a, l, rfl⟩ : ∃ a l, s = a :: l := by
    cases s with
    | nil => exact absurd rfl hne
    | cons a l => exact ⟨a, l, rfl⟩
  have ha : a.isDigit = true := hs a (List.mem_cons_self a l)
  have hdw : (a :: l).dropWhile Char.isWhitespace = a :: l := by
    rw [List.dropWhile_cons, if_neg]
    rw [isDigit_not_whitespace a ha]
    exact Bool.false_ne_true
  have hm : a ≠ '-' := isDigit_ne a '-' (by decide) ha
  have hp : a ≠ '+' := isDigit_ne a '+' (by decide) ha
  have htw : (a :: l).takeWhile Char.isDigit = a :: l :=
    List.takeWhile_eq_self_iff.mpr hs
  rw [parseIntJS]
  simp only [hdw, List.head?_cons, Option.some.injEq]
  rw [if_neg hm, if_neg (not_or.mpr ⟨hm, hp⟩), htw,
    if_neg (List.cons_ne_nil a l), one_mul]

/-! ## Theorems -/

theorem jle_iff {a b : JStr} : jle a b = true ↔ a ≤ b := by
  simp [jle]

/-- The batch-resolution branch of `computeRecord`, extracted. -/
theorem computeRecord_batchId (record : EggRecord)
    (charRecords : List CharacterizationRecord) :
    (computeRecord record charRecords).batchId =
      if 0 < charRecords.length then
        match (sortedAviaryChars record charRecords).find?
            (fun c => jle c.date record.date) with
        | some activeChar => some activeChar.batchId
        | none => record.batchId
      else record.batchId := rfl

theorem computeRecord_totalEggs (record : EggRecord)
    (charRecords : List CharacterizationRecord) :
    (computeRecord record charRecords).totalEggs =
      record.clean + record.dirty + record.cracked + record.floorEggs.getD 0 :=
  rfl

theorem computeRecord_percClean (record : EggRecord)
    (charRecords : List CharacterizationRecord) :
    (computeRecord record charRecords).percClean =
      if (computeRecord record charRecords).totalEggs > 0
      then some (record.clean / (computeRecord record charRecords).totalEggs)
      else none := rfl

theorem computeRecord_percDirty (record : EggRecord)
    (charRecords : List CharacterizationRecord) :
    (computeRecord record charRecords).percDirty =
      if (computeRecord record charRecords).totalEggs > 0
      then some (record.dirty / (computeRecord record charRecords).totalEggs)
      else none := rfl

theorem computeRecord_percCracked (record : EggRecord)
    (charRecords : List CharacterizationRecord) :
    (computeRecord record charRecords).percCracked =
      if (computeRecord record charRecords).totalEggs > 0
      then some (record.cracked / (computeRecord record charRecords).totalEggs)
      else none := rfl

theorem computeRecord_percFloorEggs (record : EggRecord)
    (charRecords : List CharacterizationRecord) :
    (computeRecord record charRecords).percFloorEggs =
      if (computeRecord record charRecords).totalEggs > 0
      then some (record.floorEggs.getD 0 /
        (computeRecord record charRecords).totalEggs)
      else none := rfl

theorem computeRecord_layingRate (record : EggRecord)
    (charRecords : List CharacterizationRecord) :
    (computeRecord record charRecords).layingRate =
      if record.birds > 0
      then some ((computeRecord record charRecords).totalEggs / record.birds)
      else none := rfl

/-- On a list sorted by descending date, `find?` for "date ≤ d" returns a
member whose date is maximal among all members with date ≤ d. -/
theorem find?_sorted_max (d : JStr) :
    ∀ l : List CharacterizationRecord,
      l.Pairwise (fun a b : CharacterizationRecord => b.date ≤ a.date) →
      ∀ c, l.find? (fun x => jle x.date d) = some c →
        c ∈ l ∧ c.date ≤ d ∧ ∀ x ∈ l, x.date ≤ d → x.date ≤ c.date := by
  intro l
  induction l with
  | nil => intro _ c hc; simp at hc
  | cons a tl ih =>
    intro hp c hc
    rw [List.pairwise_cons] at hp
    by_cases hq : jle a.date d = true
    · simp only [List.find?, hq, Option.some.injEq] at hc
      subst hc
      refine ⟨List.mem_cons_self a tl, jle_iff.mp hq, ?_⟩
      intro x hx _
      rcases List.mem_cons.mp hx with rfl | hx
      · exact le_refl _
      · exact hp.1 x hx
    · rw [Bool.not_eq_true] at hq
      simp only [List.find?, hq] at hc
      obtain ⟨hm, hle, hmax⟩ := ih hp.2 c hc
      refine ⟨List.mem_cons_of_mem a hm, hle, ?_⟩
      intro x hx hxd
      rcases List.mem_cons.mp hx with rfl | hx
      · exact absurd (jle_iff.mpr hxd) (by rw [hq]; exact Bool.false_ne_true)
      · exact hmax x hx hxd

/-- C1: whenever some characterization snapshot for the record's aviary is
dated on or before the record's date, `computeRecord` resolves the batch
identifier to that of a qualifying snapshot with the maximum date, regardless
of the batch identifier stored on the record. -/
theorem computeRecord_resolves_latest_batch
    (record : EggRecord) (charRecords : List CharacterizationRecord)
    (h : ∃ c ∈ charRecords, c.aviary = record.aviary ∧ c.date ≤ record.date) :
    ∃ c ∈ charRecords, c.aviary = record.aviary ∧ c.date ≤ record.date ∧
      (computeRecord record charRecords).batchId = some c.batchId ∧
      ∀ c' ∈ charRecords, c'.aviary = record.aviary →
        c'.date ≤ record.date → c'.date ≤ c.date := by
  obtain ⟨c₀, hc₀m, hc₀a, hc₀d⟩ := h
  have hmem : ∀ x : CharacterizationRecord,
      x ∈ sortedAviaryChars record charRecords ↔
      x ∈ charRecords ∧ x.aviary = record.aviary := by
    intro x
    rw [sortedAviaryChars, List.mem_insertionSort, List.mem_filter]
    simp
  have hsorted : (sortedAviaryChars record charRecords).Pairwise
      (fun x y : CharacterizationRecord => y.date ≤ x.date) := by
    haveI ht : IsTotal CharacterizationRecord
        (fun x y : CharacterizationRecord => y.date ≤ x.date) :=
      ⟨fun x y => le_total y.date x.date⟩
    haveI htr : IsTrans CharacterizationRecord
        (fun x y : CharacterizationRecord => y.date ≤ x.date) :=
      ⟨fun _ _ _ hxy hyz => le_trans hyz hxy⟩
    exact List.sorted_insertionSort _ _
  obtain ⟨c, hc⟩ : ∃ c, (sortedAviaryChars record charRecords).find?
      (fun c => jle c.date record.date) = some c := by
    cases hf : (sortedAviaryChars record charRecords).find?
        (fun c => jle c.date record.date) with
    | none =>
      exact absurd (jle_iff.mpr hc₀d)
        (List.find?_eq_none.mp hf c₀ ((hmem c₀).mpr ⟨hc₀m, hc₀a⟩))
    | some c => exact ⟨c, rfl⟩
  obtain ⟨hcm, hcd, hcmax⟩ := find?_sorted_max record.date _ hsorted c hc
  have hlen : 0 < charRecords.length :=
    List.length_pos.mpr (List.ne_nil_of_mem hc₀m)
  refine ⟨c, ((hmem c).mp hcm).1, ((hmem c).mp hcm).2, hcd, ?_, ?_⟩
  · rw [computeRecord_batchId, if_pos hlen, hc]
  · intro c' hc'm hc'a hc'd
    exact hcmax c' ((hmem c').mpr ⟨hc'm, hc'a⟩) hc'd

/-- Witness for C1 at the spec's example: the record dated 2024-03-10 with
snapshots dated 2024-01-01 (batch "L1") and 2024-03-01 (batch "L2") resolves
to batch "L2". -/
theorem computeRecord_resolves_latest_batch_witness :
    (∃ c ∈ [snapJan, snapMar], c.aviary = recMarch.aviary ∧
      c.date ≤ recMarch.date ∧
      (computeRecord recMarch [snapJan, snapMar]).batchId = some c.batchId ∧
      ∀ c' ∈ [snapJan, snapMar], c'.aviary = recMarch.aviary →
        c'.date ≤ recMarch.date → c'.date ≤ c.date) ∧
    (computeRecord recMarch [snapJan, snapMar]).batchId = some "L2".toList :=
  ⟨computeRecord_resolves_latest_batch recMarch [snapJan, snapMar]
    (by decide), by decide⟩

/-- C2, counterexample: a record carrying the stored batch identifier
`"STORED"`, dated before the only snapshot (so no snapshot qualifies), comes
out of `computeRecord` with batch `"STORED"` — not with `undefined`/absent as
the claim states. -/
theorem computeRecord_no_match_counterexample :
    (¬ ∃ c ∈ [snapJan], c.aviary = recDec.aviary ∧ c.date ≤ recDec.date) ∧
    (computeRecord recDec [snapJan]).batchId = some "STORED".toList ∧
    (computeRecord recDec [snapJan]).batchId ≠ none := by
  refine ⟨by decide, by decide, by decide⟩

/-- C2 (amended): when no characterization snapshot for the record's aviary is
dated on or before the record's date, `computeRecord` leaves the record's
stored batch identifier in place (the `let batchId = record.batchId` default
is only overwritten when a qualifying snapshot is found). -/
theorem computeRecord_no_match_keeps_stored
    (record : EggRecord) (charRecords : List CharacterizationRecord)
    (h : ∀ c ∈ charRecords, c.aviary = record.aviary →
      ¬ c.date ≤ record.date) :
    (computeRecord record charRecords).batchId = record.batchId := by
  rw [computeRecord_batchId]
  by_cases hlen : 0 < charRecords.length
  · rw [if_pos hlen]
    have hnone : (sortedAviaryChars record charRecords).find?
        (fun c => jle c.date record.date) = none := by
      rw [List.find?_eq_none]
      intro x hx
      rw [sortedAviaryChars, List.mem_insertionSort, List.mem_filter] at hx
      intro hj
      exact h x hx.1 (by simpa using hx.2) (jle_iff.mp hj)
    rw [hnone]
  · rw [if_neg hlen]

/-- Witness for the amended C2: the record dated 2023-12-01 (before the only
snapshot) keeps its stored batch identifier. -/
theorem computeRecord_no_match_keeps_stored_witness :
    (computeRecord recDec [snapJan]).batchId = recDec.batchId :=
  computeRecord_no_match_keeps_stored recDec [snapJan] (by decide)

/-- C3: with non-negative inputs, `totalEggs` is the sum of the four counts
(floor taken as 0 when absent); the four percentage fields are `null` exactly
when `totalEggs = 0` and otherwise each equals its component over the total,
lies in `[0, 1]`, and the four sum to 1; `layingRate` is `null` exactly when
`birds = 0` and otherwise equals `totalEggs / birds`. -/
theorem computeRecord_metrics
    (record : EggRecord) (charRecords : List CharacterizationRecord)
    (hc : 0 ≤ record.clean) (hd : 0 ≤ record.dirty)
    (hk : 0 ≤ record.cracked) (hf : 0 ≤ record.floorEggs.getD 0)
    (hb : 0 ≤ record.birds) :
    (computeRecord record charRecords).totalEggs =
      record.clean + record.dirty + record.cracked + record.floorEggs.getD 0 ∧
    ((computeRecord record charRecords).totalEggs = 0 →
      (computeRecord record charRecords).percClean = none ∧
      (computeRecord record charRecords).percDirty = none ∧
      (computeRecord record charRecords).percCracked = none ∧
      (computeRecord record charRecords).percFloorEggs = none) ∧
    ((computeRecord record charRecords).totalEggs ≠ 0 →
      ∃ qc qd qk qf : ℚ,
        (computeRecord record charRecords).percClean = some qc ∧
        (computeRecord record charRecords).percDirty = some qd ∧
        (computeRecord record charRecords).percCracked = some qk ∧
        (computeRecord record charRecords).percFloorEggs = some qf ∧
        qc = record.clean / (computeRecord record charRecords).totalEggs ∧
        qd = record.dirty / (computeRecord record charRecords).totalEggs ∧
        qk = record.cracked / (computeRecord record charRecords).totalEggs ∧
        qf = record.floorEggs.getD 0 /
          (computeRecord record charRecords).totalEggs ∧
        0 ≤ qc ∧ qc ≤ 1 ∧ 0 ≤ qd ∧ qd ≤ 1 ∧
        0 ≤ qk ∧ qk ≤ 1 ∧ 0 ≤ qf ∧ qf ≤ 1 ∧
        qc + qd + qk + qf = 1) ∧
    (record.birds = 0 → (computeRecord record charRecords).layingRate = none) ∧
    (record.birds ≠ 0 → (computeRecord record charRecords).layingRate =
      some ((computeRecord record charRecords).totalEggs / record.birds)) := by
  have htot := computeRecord_totalEggs record charRecords
  refine ⟨htot, ?_, ?_, ?_, ?_⟩
  · intro h0
    rw [computeRecord_percClean, computeRecord_percDirty,
      computeRecord_percCracked, computeRecord_percFloorEggs]
    rw [h0]
    norm_num
  · intro hne
    have hpos : 0 < (computeRecord record charRecords).totalEggs := by
      rw [htot] at hne ⊢
      have : 0 ≤ record.clean + record.dirty + record.cracked +
          record.floorEggs.getD 0 := by positivity
      exact lt_of_le_of_ne this (Ne.symm hne)
    have hT0 : (0 : ℚ) ≤ (computeRecord record charRecords).totalEggs :=
      le_of_lt hpos
    refine ⟨record.clean / (computeRecord record charRecords).totalEggs,
      record.dirty / (computeRecord record charRecords).totalEggs,
      record.cracked / (computeRecord record charRecords).totalEggs,
      record.floorEggs.getD 0 / (computeRecord record charRecords).totalEggs,
      ?_, ?_, ?_, ?_, rfl, rfl, rfl, rfl, ?_, ?_, ?_, ?_, ?_, ?_, ?_, ?_, ?_⟩
    · rw [computeRecord_percClean, if_pos hpos]
    · rw [computeRecord_percDirty, if_pos hpos]
    · rw [computeRecord_percCracked, if_pos hpos]
    · rw [computeRecord_percFloorEggs, if_pos hpos]
    · exact div_nonneg hc hT0
    · rw [div_le_one hpos, htot]; linarith
    · exact div_nonneg hd hT0
    · rw [div_le_one hpos, htot]; linarith
    · exact div_nonneg hk hT0
    · rw [div_le_one hpos, htot]; linarith
    · exact div_nonneg hf hT0
    · rw [div_le_one hpos, htot]; linarith
    · rw [div_add_div_same, div_add_div_same, div_add_div_same, ← htot]
      exact div_self (ne_of_gt hpos)
  · intro h0
    rw [computeRecord_layingRate, if_neg (by rw [h0]; exact lt_irrefl 0)]
  · intro hne
    rw [computeRecord_layingRate, if_pos (lt_of_le_of_ne hb (Ne.symm hne))]

/-- Witness for C3 at a concrete record (80 clean, 10 dirty, 5 cracked, no
floor eggs, 100 birds): total 95, laying rate 95/100. -/
theorem computeRecord_metrics_witness :
    (computeRecord recMarch []).totalEggs = 95 ∧
    (computeRecord recMarch []).layingRate = some (95 / 100 : ℚ) := by
  have h := computeRecord_metrics recMarch [] (by norm_num [recMarch])
    (by norm_num [recMarch]) (by norm_num [recMarch])
    (by norm_num [recMarch]) (by norm_num [recMarch])
  refine ⟨h.1.trans (by norm_num [recMarch]), ?_⟩
  rw [h.2.2.2.2 (by norm_num [recMarch]), h.1]
  norm_num [recMarch]

/-! ### C4: `compareFortnights` -/

theorem singleton_infix_mem {x : Char} {l : JStr} (h : [x] <:+: l) : x ∈ l := by
  obtain ⟨s, t, rfl⟩ := h
  simp

theorem monthNames_getD_clean :
    ∀ i, i < 12 → ' ' ∉ monthNames.getD i jsUndefined ∧
      '/' ∉ monthNames.getD i jsUndefined := by decide

theorem monthMap_getD : ∀ i, i < 12 →
    alookup monthMap (monthNames.getD i jsUndefined) = some (i : ℤ) := by decide

/-- The parse helper recovers the triple from a well-formed label. -/
theorem parseFortnight_mkLabel (mIdx y q : ℕ) (hm : mIdx < 12)
    (hq : q = 1 ∨ q = 2) :
    parseFortnight (mkFortnightLabel mIdx y q) = ((y : ℤ), (mIdx : ℤ), (q : ℤ)) := by
  have hno := monthNames_getD_clean mIdx hm
  have hydig := natChars_digits y
  have hsep1 : ' ' ∉ monthNames.getD mIdx jsUndefined ++ '/' :: natChars y := by
    intro hmem
    rcases List.mem_append.mp hmem with h1 | h1
    · exact hno.1 h1
    · rcases List.mem_cons.mp h1 with h2 | h2
      · exact absurd h2 (by decide)
      · exact absurd (hydig ' ' h2) (by decide)
  have hshape : mkFortnightLabel mIdx y q =
      (monthNames.getD mIdx jsUndefined ++ '/' :: natChars y) ++
        (' ' :: '-' :: ' ' :: []) ++
        (if q = 1 then "1ª Quinzena".toList else "2ª Quinzena".toList) := by
    rw [mkFortnightLabel]
    simp
  have hord : jsSplitOn [' ', '-', ' ']
      (if q = 1 then "1ª Quinzena".toList else "2ª Quinzena".toList) =
      [if q = 1 then "1ª Quinzena".toList else "2ª Quinzena".toList] := by
    rcases hq with rfl | rfl <;> decide
  have hsplit1 : jsSplitOn [' ', '-', ' '] (mkFortnightLabel mIdx y q) =
      [monthNames.getD mIdx jsUndefined ++ '/' :: natChars y,
        if q = 1 then "1ª Quinzena".toList else "2ª Quinzena".toList] := by
    rw [hshape, jsSplitOn_append ' ' ['-', ' '] _ _ hsep1, hord]
  have hsplit2 : jsSplitOn ['/']
      (monthNames.getD mIdx jsUndefined ++ '/' :: natChars y) =
      [monthNames.getD mIdx jsUndefined, natChars y] := by
    have : monthNames.getD mIdx jsUndefined ++ '/' :: natChars y =
        monthNames.getD mIdx jsUndefined ++ ('/' :: []) ++ natChars y := by
      simp
    rw [this, jsSplitOn_append '/' [] _ _ hno.2,
      jsSplitOn_of_no_sep ['/'] (natChars y)
        (fun hi => absurd (hydig '/' (singleton_infix_mem hi)) (by decide))]
  have hyear : parseIntJS (natChars y) = some (y : ℤ) := by
    rw [parseIntJS_all_digits (natChars y) (natChars_ne_nil y) hydig,
      charsToNat_natChars]
  rw [parseFortnight, hsplit1]
  simp only [hsplit2, List.getD_cons_zero, List.getElem?_cons_succ,
    List.getElem?_cons_zero, Option.some_bind, hyear, Option.getD_some,
    monthMap_getD mIdx hm]
  rcases hq with rfl | rfl
  · have h1 : (if (1 : ℕ) = 1 then "1ª Quinzena".toList
        else "2ª Quinzena".toList) = "1ª Quinzena".toList := by norm_num
    rw [h1, if_pos (by decide :
      jsIncludes ("1ª Quinzena".toList) ['1', 'ª'] = true)]
    norm_num
  · have h2 : (if (2 : ℕ) = 1 then "1ª Quinzena".toList
        else "2ª Quinzena".toList) = "2ª Quinzena".toList := by norm_num
    rw [h2, if_neg (by decide :
      ¬ jsIncludes ("2ª Quinzena".toList) ['1', 'ª'] = true)]
    norm_num

/-- C4: `compareFortnights` is a strict total order on well-formed fortnight
labels: transitive and antisymmetric (comparing equal forces equal labels),
with mirror-image signs; sorting any permutation of the three example labels
yields them in chronological order; and a label missing the `" - "` separator
parses to `(0, 0, 0)`. -/
theorem compareFortnights_strict_total_order :
    (∀ a b c : JStr, WellFormedFortnight a → WellFormedFortnight b →
      WellFormedFortnight c → compareFortnights a b < 0 →
      compareFortnights b c < 0 → compareFortnights a c < 0) ∧
    (∀ a b : JStr, WellFormedFortnight a → WellFormedFortnight b →
      compareFortnights a b = 0 → a = b) ∧
    (∀ a b : JStr, compareFortnights a b < 0 ↔ 0 < compareFortnights b a) ∧
    (∀ l : List JStr, l.Perm [labelJan1, labelJan2, labelFev1] →
      l.insertionSort (fun a b => compareFortnights a b ≤ 0) =
        [labelJan1, labelJan2, labelFev1]) ∧
    (∀ s : JStr, ¬ ([' ', '-', ' '] <:+: s) → parseFortnight s = (0, 0, 0)) := by
  refine ⟨?_, ?_, ?_, ?_, ?_⟩
  · intro a b c _ _ _ h₁ h₂
    rw [compareFortnights] at h₁ h₂ ⊢
    split_ifs at h₁ h₂ ⊢ <;> omega
  · rintro a b ⟨m₁, y₁, q₁, hm₁, hq₁, rfl⟩ ⟨m₂, y₂, q₂, hm₂, hq₂, rfl⟩ h
    rw [compareFortnights, parseFortnight_mkLabel m₁ y₁ q₁ hm₁ hq₁,
      parseFortnight_mkLabel m₂ y₂ q₂ hm₂ hq₂] at h
    have : y₁ = y₂ ∧ m₁ = m₂ ∧ q₁ = q₂ := by
      simp only at h
      split_ifs at h <;> omega
    rw [this.1, this.2.1, this.2.2]
  · intro a b
    rw [compareFortnights, compareFortnights]
    split_ifs <;> omega
  · intro l hperm
    have hlen : l.length = 3 := by rw [hperm.length_eq]; rfl
    obtain ⟨x, y, z, rfl⟩ : ∃ x y z, l = [x, y, z] := by
      match l, hlen with
      | [x, y, z], _ => exact ⟨x, y, z, rfl⟩
    have hx : x ∈ [labelJan1, labelJan2, labelFev1] :=
      hperm.mem_iff.mp (by simp)
    have hy : y ∈ [labelJan1, labelJan2, labelFev1] :=
      hperm.mem_iff.mp (by simp)
    have hz : z ∈ [labelJan1, labelJan2, labelFev1] :=
      hperm.mem_iff.mp (by simp)
    simp only [List.mem_cons, List.mem_singleton, List.not_mem_nil,
      or_false] at hx hy hz
    rcases hx with rfl | rfl | rfl <;> rcases hy with rfl | rfl | rfl <;>
      rcases hz with rfl | rfl | rfl <;>
      first
        | exact absurd hperm (by decide)
        | decide
  · intro s h
    rw [parseFortnight, jsSplitOn_of_no_sep [' ', '-', ' '] s h]

/-- Witness for C4: the first label sorts before the third, and a shuffled
list of the three example labels sorts into chronological order. -/
theorem compareFortnights_strict_total_order_witness :
    compareFortnights labelJan1 labelFev1 < 0 ∧
    ([labelFev1, labelJan1, labelJan2].insertionSort
      (fun a b => compareFortnights a b ≤ 0) =
        [labelJan1, labelJan2, labelFev1]) :=
  ⟨compareFortnights_strict_total_order.1 labelJan1 labelJan2 labelFev1
      ⟨0, 2024, 1, by decide, Or.inl rfl, by decide⟩
      ⟨0, 2024, 2, by decide, Or.inr rfl, by decide⟩
      ⟨1, 2024, 1, by decide, Or.inl rfl, by decide⟩
      (by decide) (by decide),
    compareFortnights_strict_total_order.2.2.2.1
      [labelFev1, labelJan1, labelJan2] (by decide)⟩

/-! ### C6: `getFortnight` -/

theorem padStart_natChars_clean (k n : ℕ) (b : Char) (hb : b.isDigit = false) :
    b ∉ padStart k '0' (natChars n) := fun hmem =>
  absurd (padStart_digits k (natChars n) (natChars_digits n) b hmem)
    (by rw [hb]; exact Bool.false_ne_true)

/-- C6: on the canonical ISO rendering of a valid calendar date, `getFortnight`
produces `"<MonthAbbrev>/<FullYear> - 1ª Quinzena"` for days 1–15 and
`"<MonthAbbrev>/<FullYear> - 2ª Quinzena"` for days 16 and up, the month
abbreviation coming from the fixed 12-entry table. -/
theorem getFortnight_spec (y m d : ℕ) (_hm1 : 1 ≤ m) (_hm2 : m ≤ 12)
    (hd1 : 1 ≤ d) (hd2 : d ≤ 31) :
    (d ≤ 15 → getFortnight (isoOf y m d) = mkFortnightLabel (m - 1) y 1) ∧
    (16 ≤ d → getFortnight (isoOf y m d) = mkFortnightLabel (m - 1) y 2) := by
  have hy := padStart_natChars_clean 4 y '-' (by decide)
  have hm := padStart_natChars_clean 2 m '-' (by decide)
  have hd := padStart_natChars_clean 2 d '-' (by decide)
  have hsplit : jsSplitOn ['-'] (isoOf y m d) =
      [padStart 4 '0' (natChars y), padStart 2 '0' (natChars m),
        padStart 2 '0' (natChars d)] := by
    have hshape : isoOf y m d =
        padStart 4 '0' (natChars y) ++ ('-' :: []) ++
          (padStart 2 '0' (natChars m) ++ ('-' :: []) ++
            padStart 2 '0' (natChars d)) := by
      rw [isoOf]; simp
    rw [hshape, jsSplitOn_append '-' [] _ _ hy,
      jsSplitOn_append '-' [] _ _ hm,
      jsSplitOn_of_no_sep ['-'] (padStart 2 '0' (natChars d))
        (fun hi => hd (singleton_infix_mem hi))]
  have hun : getFortnight (isoOf y m d) =
      monthNames.getD (m - 1) jsUndefined ++ '/' ::
        (natChars y ++ ' ' :: '-' :: ' ' ::
          (if d ≤ 15 then "1ª Quinzena".toList else "2ª Quinzena".toList)) := by
    rw [getFortnight, hsplit]
    simp only [List.getD_cons_zero, List.getD_cons_succ, charsToNat_padStart,
      charsToNat_natChars]
  constructor
  · intro h15
    rw [hun, if_pos h15, mkFortnightLabel, if_pos rfl]
  · intro h16
    rw [hun, if_neg (by omega), mkFortnightLabel,
      if_neg (by norm_num : ¬ (2 : ℕ) = 1)]

/-- Witness for C6: 2024-03-10 falls in the first fortnight of March 2024, and
the produced label is the literal `"Mar/2024 - 1ª Quinzena"`. -/
theorem getFortnight_spec_witness :
    getFortnight (isoOf 2024 3 10) = mkFortnightLabel 2 2024 1 ∧
    getFortnight ("2024-03-10".toList) = "Mar/2024 - 1ª Quinzena".toList :=
  ⟨(getFortnight_spec 2024 3 10 (by norm_num) (by norm_num) (by norm_num)
      (by norm_num)).1 (by norm_num), by decide⟩

/-! ### C7: display/ISO date conversion -/

/-- C7: the conversions are bidirectional and degrade as specified:
(1) parsing the display form of a canonical ISO date returns it exactly;
(2) parsing a `d/m/y` display string zero-pads day and month and expands a
two-character year with `"20"`; (3) a non-empty string with no `'/'` passes
through unchanged; (4) empty input gives the current date. -/
theorem parseDateFromBr_spec (today : JStr) :
    (∀ y m d : JStr, y.length = 4 → m.length = 2 → d.length = 2 →
      (∀ c ∈ y, c.isDigit = true) → (∀ c ∈ m, c.isDigit = true) →
      (∀ c ∈ d, c.isDigit = true) →
      parseDateFromBr today
        (some (formatDateBr (y ++ '-' :: (m ++ '-' :: d)))) =
        y ++ '-' :: (m ++ '-' :: d)) ∧
    (∀ d m y : JStr, '/' ∉ d → '/' ∉ m → '/' ∉ y →
      parseDateFromBr today (some (d ++ '/' :: (m ++ '/' :: y))) =
        (if y.length = 2 then '2' :: '0' :: y else y) ++
          '-' :: (padStart 2 '0' m ++ '-' :: padStart 2 '0' d)) ∧
    (∀ s : JStr, s ≠ [] → s.contains '/' = false →
      parseDateFromBr today (some s) = s) ∧
    (parseDateFromBr today none = today ∧
      parseDateFromBr today (some []) = today) := by
  have hgen : ∀ d m y : JStr, '/' ∉ d → '/' ∉ m → '/' ∉ y →
      parseDateFromBr today (some (d ++ '/' :: (m ++ '/' :: y))) =
        (if y.length = 2 then '2' :: '0' :: y else y) ++
          '-' :: (padStart 2 '0' m ++ '-' :: padStart 2 '0' d) := by
    intro d m y hd hm hy
    have hne : d ++ '/' :: (m ++ '/' :: y) ≠ [] := by simp
    have hcont : (d ++ '/' :: (m ++ '/' :: y)).contains '/' = true := by
      simp [List.contains_eq_any_beq, List.any_eq_true]
    have hsplit : jsSplitOn ['/'] (d ++ '/' :: (m ++ '/' :: y)) =
        [d, m, y] := by
      have hshape : d ++ '/' :: (m ++ '/' :: y) =
          d ++ ('/' :: []) ++ (m ++ ('/' :: []) ++ y) := by simp
      rw [hshape, jsSplitOn_append '/' [] _ _ hd,
        jsSplitOn_append '/' [] _ _ hm,
        jsSplitOn_of_no_sep ['/'] y
          (fun hi => hy (singleton_infix_mem hi))]
    rw [parseDateFromBr]
    simp only [if_neg hne, hcont, if_pos rfl, hsplit, if_true,
      List.getD_cons_zero, List.getD_cons_succ]
  refine ⟨?_, hgen, ?_, rfl, by rw [parseDateFromBr]; simp⟩
  · intro y m d hy4 hm2 hd2 hydig hmdig hddig
    have hyd : '-' ∉ y := fun hmem =>
      absurd (hydig '-' hmem) (by decide)
    have hmd : '-' ∉ m := fun hmem =>
      absurd (hmdig '-' hmem) (by decide)
    have hdd : '-' ∉ d := fun hmem =>
      absurd (hddig '-' hmem) (by decide)
    have hfmt : formatDateBr (y ++ '-' :: (m ++ '-' :: d)) =
        d ++ '/' :: (m ++ '/' :: y) := by
      have hne : y ++ '-' :: (m ++ '-' :: d) ≠ [] := by simp
      have hsplit : jsSplitOn ['-'] (y ++ '-' :: (m ++ '-' :: d)) =
          [y, m, d] := by
        have hshape : y ++ '-' :: (m ++ '-' :: d) =
            y ++ ('-' :: []) ++ (m ++ ('-' :: []) ++ d) := by simp
        rw [hshape, jsSplitOn_append '-' [] _ _ hyd,
          jsSplitOn_append '-' [] _ _ hmd,
          jsSplitOn_of_no_sep ['-'] d
            (fun hi => hdd (singleton_infix_mem hi))]
      rw [formatDateBr, if_neg hne, hsplit]
      simp only [List.getD_cons_zero, List.getD_cons_succ]
    have hysl : '/' ∉ y := fun hmem =>
      absurd (hydig '/' hmem) (by decide)
    have hmsl : '/' ∉ m := fun hmem =>
      absurd (hmdig '/' hmem) (by decide)
    have hdsl : '/' ∉ d := fun hmem =>
      absurd (hddig '/' hmem) (by decide)
    rw [hfmt, hgen d m y hdsl hmsl hysl]
    rw [if_neg (by rw [hy4]; norm_num)]
    have hpm : padStart 2 '0' m = m := by
      rw [padStart, hm2]
      simp
    have hpd : padStart 2 '0' d = d := by
      rw [padStart, hd2]
      simp
    rw [hpm, hpd]
  · intro s hne hcont
    rw [parseDateFromBr, if_neg hne,
      if_neg (by rw [hcont]; exact Bool.false_ne_true)]

/-- Witness for C7: round trip at `"2024-03-10"`, padding/expansion at
`"5/3/24"`, pass-through at `"2024-03-10"`, and empty input. -/
theorem parseDateFromBr_spec_witness :
    parseDateFromBr ("2026-10-12".toList)
      (some (formatDateBr ("2024-03-10".toList))) = "2024-03-10".toList ∧
    parseDateFromBr ("2026-10-12".toList) (some ("5/3/24".toList)) =
      "2024-03-05".toList ∧
    parseDateFromBr ("2026-10-12".toList) (some ("2024-03-10".toList)) =
      "2024-03-10".toList ∧
    parseDateFromBr ("2026-10-12".toList) none = "2026-10-12".toList := by
  have h := parseDateFromBr_spec ("2026-10-12".toList)
  refine ⟨?_, ?_, ?_, h.2.2.2.1⟩
  · have := h.1 ("2024".toList) ("03".toList) ("10".toList)
      (by decide) (by decide) (by decide) (by decide) (by decide) (by decide)
    exact (by decide : some (formatDateBr ("2024-03-10".toList)) =
      some (formatDateBr ("2024".toList ++ '-' ::
        ("03".toList ++ '-' :: "10".toList)))) ▸ (by exact this)
  · have := h.2.1 ("5".toList) ("3".toList) ("24".toList)
      (by decide) (by decide) (by decide)
    exact this.trans (by decide)
  · exact h.2.2.1 ("2024-03-10".toList) (by decide) (by decide)

/-! ### C5: import merge -/

section MergeLemmas

variable {α : Type}

theorem alookup_jsMapSet (m : List (JStr × α)) (k k' : JStr) (v : α) :
    alookup (jsMapSet m k v) k' = if k = k' then some v else alookup m k' := by
  induction m with
  | nil => rfl
  | cons p rest ih =>
    obtain ⟨k₀, v₀⟩ := p
    rw [jsMapSet]
    by_cases h0 : k₀ = k
    · subst h0
      rw [if_pos rfl, alookup, alookup]
      by_cases hk : k₀ = k'
      · simp only [if_pos hk]
      · simp only [if_neg hk]
    · rw [if_neg h0, alookup, alookup, ih]
      by_cases h0' : k₀ = k'
      · simp only [if_pos h0', if_neg (fun hh => h0 (h0'.trans (Eq.symm hh)))]
      · simp only [if_neg h0']

theorem alookup_buildFold (keyOf : α → JStr) (k : JStr) :
    ∀ (recs : List α) (m : List (JStr × α)),
      alookup (recs.foldl (fun m r => jsMapSet m (keyOf r) r) m) k =
        match lastWith (fun r => keyOf r = k) recs with
        | some r => some r
        | none => alookup m k := by
  intro recs
  induction recs with
  | nil => intro m; rfl
  | cons r rest ih =>
    intro m
    rw [List.foldl_cons, ih (jsMapSet m (keyOf r) r), lastWith]
    cases hrest : lastWith (fun r => keyOf r = k) rest with
    | some r' => rfl
    | none =>
      simp only
      rw [alookup_jsMapSet]
      by_cases hk : keyOf r = k
      · rw [if_pos hk, if_pos hk]
      · rw [if_neg hk, if_neg hk]

theorem alookup_buildMap (keyOf : α → JStr) (recs : List α) (k : JStr) :
    alookup (buildMap keyOf recs) k = lastWith (fun r => keyOf r = k) recs := by
  rw [buildMap, alookup_buildFold]
  cases lastWith (fun r => keyOf r = k) recs <;> rfl

theorem alookup_mergeFold (keyOf : α → JStr) (idOf : α → JStr)
    (setId : α → JStr → α)
    (hsi : ∀ r i, idOf (setId r i) = i)
    (hri : ∀ r, setId r (idOf r) = r) (k : JStr) :
    ∀ (incoming : List α) (m : List (JStr × α)),
      alookup (incoming.foldl (mergeStep keyOf idOf setId) m) k =
        match lastWith (fun r => keyOf r = k) incoming with
        | none => alookup m k
        | some rl => some (setId rl
            (match alookup m k with
             | some ex => idOf ex
             | none => idOf ((incoming.find?
                 fun r => decide (keyOf r = k)).getD rl))) := by
  intro incoming
  induction incoming with
  | nil => intro m; rfl
  | cons r rest ih =>
    intro m
    rw [List.foldl_cons, ih (mergeStep keyOf idOf setId m r), lastWith]
    by_cases hk : keyOf r = k
    · have hstep : alookup (mergeStep keyOf idOf setId m r) k =
          match alookup m k with
          | some ex => some (setId r (idOf ex))
          | none => some r := by
        rw [mergeStep, hk]
        cases alookup m k with
        | some ex => rw [alookup_jsMapSet, if_pos rfl]
        | none => rw [alookup_jsMapSet, if_pos rfl]
      have hfind : (List.find? (fun r => decide (keyOf r = k)) (r :: rest)) =
          some r := by
        rw [List.find?_cons_of_pos]
        simp [hk]
      cases hrest : lastWith (fun r => keyOf r = k) rest with
      | none =>
        simp only [if_pos hk, hstep, hfind]
        cases hm : alookup m k with
        | some ex => simp
        | none => simp [hri r]
      | some rl =>
        simp only [hstep, hfind]
        cases hm : alookup m k with
        | some ex => simp [hsi]
        | none => simp [hsi, hri]
    · have hstep : alookup (mergeStep keyOf idOf setId m r) k =
          alookup m k := by
        rw [mergeStep]
        cases alookup m (keyOf r) with
        | some ex => rw [alookup_jsMapSet, if_neg hk]
        | none => rw [alookup_jsMapSet, if_neg hk]
      have hfind : (List.find? (fun r => decide (keyOf r = k)) (r :: rest)) =
          List.find? (fun r => decide (keyOf r = k)) rest := by
        rw [List.find?_cons_of_neg]
        simp [hk]
      cases hrest : lastWith (fun r => keyOf r = k) rest with
      | none => simp only [if_neg hk, hstep]
      | some rl => simp only [hstep, hfind]

theorem mem_keys_jsMapSet (m : List (JStr × α)) (k : JStr) (v : α) (x : JStr) :
    x ∈ (jsMapSet m k v).map Prod.fst ↔ x ∈ m.map Prod.fst ∨ x = k := by
  induction m with
  | nil =>
    rw [jsMapSet]
    simp only [List.map_cons, List.map_nil, List.mem_cons, List.not_mem_nil]
    tauto
  | cons p rest ih =>
    obtain ⟨k₀, v₀⟩ := p
    rw [jsMapSet]
    by_cases h0 : k₀ = k
    · rw [if_pos h0]
      subst h0
      simp only [List.map_cons, List.mem_cons]
      tauto
    · rw [if_neg h0]
      simp only [List.map_cons, List.mem_cons, ih]
      tauto

theorem keysNodup_jsMapSet (m : List (JStr × α)) (k : JStr) (v : α)
    (h : (m.map Prod.fst).Nodup) : ((jsMapSet m k v).map Prod.fst).Nodup := by
  induction m with
  | nil =>
    rw [jsMapSet]
    simp
  | cons p rest ih =>
    obtain ⟨k₀, v₀⟩ := p
    rw [List.map_cons, List.nodup_cons] at h
    rw [jsMapSet]
    by_cases h0 : k₀ = k
    · rw [if_pos h0]
      subst h0
      simp only [List.map_cons, List.nodup_cons]
      exact h
    · rw [if_neg h0]
      simp only [List.map_cons, List.nodup_cons, mem_keys_jsMapSet]
      exact ⟨fun hc => hc.elim h.1 h0, ih h.2⟩

theorem keysNodup_fold (step : List (JStr × α) → α → List (JStr × α))
    (hstep : ∀ m r, (m.map Prod.fst).Nodup → ((step m r).map Prod.fst).Nodup) :
    ∀ (recs : List α) (m : List (JStr × α)),
      (m.map Prod.fst).Nodup → ((recs.foldl step m).map Prod.fst).Nodup := by
  intro recs
  induction recs with
  | nil => intro m h; exact h
  | cons r rest ih => intro m h; exact ih (step m r) (hstep m r h)

theorem keysNodup_mergedMap (keyOf : α → JStr) (idOf : α → JStr)
    (setId : α → JStr → α) (prev incoming : List α) :
    ((mergedMap keyOf idOf setId prev incoming).map Prod.fst).Nodup := by
  rw [mergedMap]
  apply keysNodup_fold
  · intro m r h
    rw [mergeStep]
    cases alookup m (keyOf r) with
    | some ex => exact keysNodup_jsMapSet m _ _ h
    | none => exact keysNodup_jsMapSet m _ _ h
  · rw [buildMap]
    apply keysNodup_fold
    · intro m r h
      exact keysNodup_jsMapSet m _ _ h
    · simp

theorem alookup_eq_some_iff (m : List (JStr × α))
    (h : (m.map Prod.fst).Nodup) (k : JStr) (v : α) :
    alookup m k = some v ↔ (k, v) ∈ m := by
  induction m with
  | nil => simp [alookup]
  | cons p rest ih =>
    obtain ⟨k₀, v₀⟩ := p
    rw [List.map_cons, List.nodup_cons] at h
    rw [alookup]
    by_cases h0 : k₀ = k
    · subst h0
      rw [if_pos rfl]
      constructor
      · intro hv
        injection hv with hv
        subst hv
        exact List.mem_cons_self _ _
      · intro hmem
        rcases List.mem_cons.mp hmem with heq | hmem
        · have hv : v = v₀ := congrArg Prod.snd heq
          rw [hv]
        · exact absurd (List.mem_map.mpr ⟨(k₀, v), hmem, rfl⟩) h.1
    · rw [if_neg h0, ih h.2]
      constructor
      · exact fun hm => List.mem_cons_of_mem _ hm
      · intro hm
        rcases List.mem_cons.mp hm with heq | hm
        · exact absurd (congrArg Prod.fst heq).symm h0
        · exact hm

theorem mem_values_iff (m : List (JStr × α))
    (h : (m.map Prod.fst).Nodup) (v : α) :
    v ∈ m.map Prod.snd ↔ ∃ k, alookup m k = some v := by
  rw [List.mem_map]
  constructor
  · rintro ⟨⟨k, v'⟩, hmem, rfl⟩
    exact ⟨k, (alookup_eq_some_iff m h k _).mpr hmem⟩
  · rintro ⟨k, hk⟩
    exact ⟨(k, v), (alookup_eq_some_iff m h k v).mp hk, rfl⟩

theorem alookup_mergedMap_none (keyOf : α → JStr) (idOf : α → JStr)
    (setId : α → JStr → α)
    (hsi : ∀ r i, idOf (setId r i) = i) (hri : ∀ r, setId r (idOf r) = r)
    (prev incoming : List α) (k : JStr)
    (h : lastWith (fun r => keyOf r = k) incoming = none) :
    alookup (mergedMap keyOf idOf setId prev incoming) k =
      lastWith (fun r => keyOf r = k) prev := by
  rw [mergedMap, alookup_mergeFold keyOf idOf setId hsi hri k incoming
    (buildMap keyOf prev), h]
  exact alookup_buildMap keyOf prev k

theorem alookup_mergedMap_replace (keyOf : α → JStr) (idOf : α → JStr)
    (setId : α → JStr → α)
    (hsi : ∀ r i, idOf (setId r i) = i) (hri : ∀ r, setId r (idOf r) = r)
    (prev incoming : List α) (k : JStr) (rl ex : α)
    (hinc : lastWith (fun r => keyOf r = k) incoming = some rl)
    (hprev : lastWith (fun r => keyOf r = k) prev = some ex) :
    alookup (mergedMap keyOf idOf setId prev incoming) k =
      some (setId rl (idOf ex)) := by
  have hb : alookup (buildMap keyOf prev) k = some ex := by
    rw [alookup_buildMap, hprev]
  rw [mergedMap, alookup_mergeFold keyOf idOf setId hsi hri k incoming
    (buildMap keyOf prev), hinc, hb]

theorem alookup_mergedMap_fresh (keyOf : α → JStr) (idOf : α → JStr)
    (setId : α → JStr → α)
    (hsi : ∀ r i, idOf (setId r i) = i) (hri : ∀ r, setId r (idOf r) = r)
    (prev incoming : List α) (k : JStr) (rl rf : α)
    (hinc : lastWith (fun r => keyOf r = k) incoming = some rl)
    (hprev : lastWith (fun r => keyOf r = k) prev = none)
    (hfind : (incoming.find? fun r => decide (keyOf r = k)) = some rf) :
    alookup (mergedMap keyOf idOf setId prev incoming) k =
      some (setId rl (idOf rf)) := by
  have hb : alookup (buildMap keyOf prev) k = none := by
    rw [alookup_buildMap, hprev]
  rw [mergedMap, alookup_mergeFold keyOf idOf setId hsi hri k incoming
    (buildMap keyOf prev), hinc, hb, hfind]
  rfl

end MergeLemmas

/-- C5: the import merge, characterized per key, for both handlers (the key is
the composite `date|aviary`, resp. `date|aviary|batchId`).  For each key `k`:
if no incoming record has key `k`, the merged map holds the last existing
record with key `k`, unchanged; if incoming records with key `k` exist and so
does an existing one, the merged map holds the last incoming one with every
field taken from it except the identifier, which is the last existing
record's identifier; if the key is fresh, the merged map holds the last
incoming record with the first such record's identifier (so a lone fresh-key
record appears entirely unchanged); last write per key wins throughout.  The
result collection holds exactly the merged map's values. -/
theorem importMerge_spec :
    (∀ prev incoming : List EggRecord, ∀ k : JStr,
      lastWith (fun r => recordKey r = k) incoming = none →
      alookup (mergedRecordMap prev incoming) k =
        lastWith (fun r => recordKey r = k) prev) ∧
    (∀ prev incoming : List EggRecord, ∀ k : JStr, ∀ rl ex : EggRecord,
      lastWith (fun r => recordKey r = k) incoming = some rl →
      lastWith (fun r => recordKey r = k) prev = some ex →
      alookup (mergedRecordMap prev incoming) k =
        some { rl with id := ex.id }) ∧
    (∀ prev incoming : List EggRecord, ∀ k : JStr, ∀ rl rf : EggRecord,
      lastWith (fun r => recordKey r = k) incoming = some rl →
      lastWith (fun r => recordKey r = k) prev = none →
      (incoming.find? fun r => decide (recordKey r = k)) = some rf →
      alookup (mergedRecordMap prev incoming) k =
        some { rl with id := rf.id }) ∧
    (∀ prev incoming : List EggRecord, ∀ rec : EggRecord,
      rec ∈ handleImportRecords prev incoming ↔
        ∃ k, alookup (mergedRecordMap prev incoming) k = some rec) ∧
    (∀ prev incoming : List CharacterizationRecord, ∀ k : JStr,
      lastWith (fun r => charKey r = k) incoming = none →
      alookup (mergedCharMap prev incoming) k =
        lastWith (fun r => charKey r = k) prev) ∧
    (∀ prev incoming : List CharacterizationRecord, ∀ k : JStr,
      ∀ rl ex : CharacterizationRecord,
      lastWith (fun r => charKey r = k) incoming = some rl →
      lastWith (fun r => charKey r = k) prev = some ex →
      alookup (mergedCharMap prev incoming) k =
        some { rl with id := ex.id }) ∧
    (∀ prev incoming : List CharacterizationRecord, ∀ k : JStr,
      ∀ rl rf : CharacterizationRecord,
      lastWith (fun r => charKey r = k) incoming = some rl →
      lastWith (fun r => charKey r = k) prev = none →
      (incoming.find? fun r => decide (charKey r = k)) = some rf →
      alookup (mergedCharMap prev incoming) k =
        some { rl with id := rf.id }) ∧
    (∀ prev incoming : List CharacterizationRecord,
      ∀ rec : CharacterizationRecord,
      rec ∈ handleImportCharRecords prev incoming ↔
        ∃ k, alookup (mergedCharMap prev incoming) k = some rec) := by
  refine ⟨?_, ?_, ?_, ?_, ?_, ?_, ?_, ?_⟩
  · intro prev incoming k h
    exact alookup_mergedMap_none recordKey EggRecord.id
      (fun r i => { r with id := i }) (fun r i => rfl) (fun r => rfl)
      prev incoming k h
  · intro prev incoming k rl ex hinc hprev
    exact alookup_mergedMap_replace recordKey EggRecord.id
      (fun r i => { r with id := i }) (fun r i => rfl) (fun r => rfl)
      prev incoming k rl ex hinc hprev
  · intro prev incoming k rl rf hinc hprev hfind
    exact alookup_mergedMap_fresh recordKey EggRecord.id
      (fun r i => { r with id := i }) (fun r i => rfl) (fun r => rfl)
      prev incoming k rl rf hinc hprev hfind
  · intro prev incoming rec
    rw [handleImportRecords]
    exact mem_values_iff _
      (keysNodup_mergedMap recordKey EggRecord.id _ prev incoming) rec
  · intro prev incoming k h
    exact alookup_mergedMap_none charKey CharacterizationRecord.id
      (fun r i => { r with id := i }) (fun r i => rfl) (fun r => rfl)
      prev incoming k h
  · intro prev incoming k rl ex hinc hprev
    exact alookup_mergedMap_replace charKey CharacterizationRecord.id
      (fun r i => { r with id := i }) (fun r i => rfl) (fun r => rfl)
      prev incoming k rl ex hinc hprev
  · intro prev incoming k rl rf hinc hprev hfind
    exact alookup_mergedMap_fresh charKey CharacterizationRecord.id
      (fun r i => { r with id := i }) (fun r i => rfl) (fun r => rfl)
      prev incoming k rl rf hinc hprev hfind
  · intro prev incoming rec
    rw [handleImportCharRecords]
    exact mem_values_iff _
      (keysNodup_mergedMap charKey CharacterizationRecord.id _ prev incoming)
      rec

/-- Witness for C5: importing a record whose (date, aviary) key matches the
existing `recMarch` replaces its content but keeps the existing identifier. -/
theorem importMerge_spec_witness :
    alookup (mergedRecordMap [recMarch]
        [{ recMarch with id := "n1".toList, clean := 99 }])
      (recordKey recMarch) =
      some { ({ recMarch with id := "n1".toList, clean := 99 } : EggRecord) with
        id := recMarch.id } :=
  importMerge_spec.2.1 [recMarch]
    [{ recMarch with id := "n1".toList, clean := 99 }]
    (recordKey recMarch) _ _ (by decide) (by decide)

/-! ### C8: CSV numeric coercion -/

/-- C8, counterexample: the non-blank token `"abc"` is not parseable as a
number, yet the coercion yields `NaN` — neither `0` (required fields) nor
`null` (nullable fields). -/
theorem parseNum_nan_counterexample :
    parseNum (some ('a' :: 'b' :: 'c' :: [])) ≠ JSNum.num 0 ∧
    parseNumNullable (some ('a' :: 'b' :: 'c' :: [])) ≠ none ∧
    parseNum (some ('a' :: 'b' :: 'c' :: [])) = JSNum.nan := by
  refine ⟨by decide, by decide, by decide⟩

/-- C8 (amended): an absent or blank token degrades to `0` for required
numeric fields and to `null` for nullable fields; a non-blank token whose
comma-normalized form has no parseable numeric prefix evaluates to `NaN`
(never an exception, never any other number). -/
theorem parseNum_degrade_spec :
    (parseNum none = JSNum.num 0) ∧
    (∀ v : JStr, jsTrim v = [] → parseNum (some v) = JSNum.num 0) ∧
    (parseNumNullable none = none) ∧
    (∀ v : JStr, jsTrim v = [] → parseNumNullable (some v) = none) ∧
    (∀ v : JStr, jsTrim v ≠ [] →
      parseFloatJS (jsReplaceFirstChar (jsTrim v) ',' '.') = JSNum.nan →
      parseNum (some v) = JSNum.nan ∧
      parseNumNullable (some v) = some JSNum.nan) := by
  refine ⟨rfl, ?_, rfl, ?_, ?_⟩
  · intro v h
    rw [parseNum]
    by_cases hv : v = []
    · rw [if_pos hv]
    · rw [if_neg hv, if_pos h]
  · intro v h
    rw [parseNumNullable, if_pos h]
  · intro v hne hnan
    have hv : v ≠ [] := fun hv => hne (by rw [hv]; rfl)
    constructor
    · rw [parseNum, if_neg hv, if_neg hne, hnan]
    · rw [parseNumNullable, if_neg hne, parseNum, if_neg hv, if_neg hne, hnan]

/-- Witness for the amended C8: a blank token gives 0 / null, the token
`"abc"` gives `NaN` through both coercions. -/
theorem parseNum_degrade_spec_witness :
    parseNum (some (' ' :: [])) = JSNum.num 0 ∧
    parseNumNullable (some (' ' :: [])) = none ∧
    parseNum (some ('a' :: 'b' :: 'c' :: [])) = JSNum.nan ∧
    parseNumNullable (some ('a' :: 'b' :: 'c' :: [])) = some JSNum.nan :=
  ⟨parseNum_degrade_spec.2.1 [' '] (by decide),
   parseNum_degrade_spec.2.2.2.1 [' '] (by decide),
   (parseNum_degrade_spec.2.2.2.2 ('a' :: 'b' :: 'c' :: [])
     (by decide) (by decide)).1,
   (parseNum_degrade_spec.2.2.2.2 ('a' :: 'b' :: 'c' :: [])
     (by decide) (by decide)).2⟩

/-- The date parser `parseDateFromBr` never returns the empty string when today's date is
non-empty, so `!record.date` in `parseCSV`'s discard guard can never hold. -/
theorem parseDateFromBr_ne_nil (today : JStr) (h : today ≠ []) :
    ∀ v : Option JStr, parseDateFromBr today v ≠ [] := by
  intro v
  cases v with
  | none => exact h
  | some s =>
    rw [parseDateFromBr]
    by_cases hs : s = []
    · rw [if_pos hs]; exact h
    · rw [if_neg hs]
      by_cases hc : s.contains '/' = true
      · rw [if_pos hc]
        intro hemp
        rw [List.append_eq_nil] at hemp
        exact absurd hemp.2 (by simp)
      · rw [if_neg hc]; exact hs

/-- C9: evaluation of `parseCSV` at the failing input.  The body row `";0;0"`
has an empty date cell and zero clean/bird counts, yet it is parsed and kept
(the guard's `!record.date` is unsatisfiable because the empty date cell
defaulted to today's date). -/
theorem parseCSV_dead_guard :
    (parseCSV ("2026-10-12".toList) csvDeadGuard).length = 1 ∧
    (parseCSV ("2026-10-12".toList) csvDeadGuard).map (fun r => r.date) =
      ["2026-10-12".toList] ∧
    (parseCSV ("2026-10-12".toList) csvDeadGuard).map (fun r => r.clean) =
      [JSNum.num 0] ∧
    (parseCSV ("2026-10-12".toList) csvDeadGuard).map (fun r => r.birds) =
      [JSNum.num 0] := by
  have h0 : parseNum (some ['0']) = JSNum.num 0 := by
    rw [show parseNum (some ['0']) = JSNum.num (1 * ((0 : ℕ) : ℚ)) from rfl]
    norm_num
  refine ⟨by decide, by decide, ?_, ?_⟩
  · rw [show (parseCSV ("2026-10-12".toList) csvDeadGuard).map
      (fun r => r.clean) = [parseNum (some ['0'])] from rfl, h0]
  · rw [show (parseCSV ("2026-10-12".toList) csvDeadGuard).map
      (fun r => r.birds) = [parseNum (some ['0'])] from rfl, h0]

/-! ### C10: fewer than two non-empty lines -/

/-- C10: on input with fewer than two non-empty lines, both CSV parsers
return the empty list without touching any body row. -/
theorem parseCSV_short_input (today text : JStr)
    (h : ((jsSplitLines text).filter fun l => !(jsTrim l).isEmpty).length < 2) :
    parseCSV today text = [] ∧ parseCharCSV today text = [] := by
  constructor
  · rw [parseCSV, if_pos h]
  · rw [parseCharCSV, if_pos h]

/-- Witness for C10: the empty input and a header-only input parse to the
empty record lists. -/
theorem parseCSV_short_input_witness :
    (parseCSV ("2026-10-12".toList) [] = [] ∧
      parseCharCSV ("2026-10-12".toList) [] = []) ∧
    (parseCSV ("2026-10-12".toList) ("data;lote".toList) = [] ∧
      parseCharCSV ("2026-10-12".toList) ("data;lote".toList) = []) :=
  ⟨parseCSV_short_input ("2026-10-12".toList) [] (by decide),
   parseCSV_short_input ("2026-10-12".toList) ("data;lote".toList) (by decide)⟩

end Aviario

